import Mathlib

/-!
Verification development for the discordscraper import pipeline.

This file gives a shallow embedding of the persistence layer
(src/db/service.py together with the schema of src/db/models.py), of the
per-file import loop (src/scripts/import_historical_exports.py), and of the
checkpoint tracker and channel classification of
src/scripts/batch_historical_export.py, and proves the behavioural
properties stated about them.

Modelling conventions:
* The relational store is a record of lists of rows; `query(...).first()`
  is `List.find?`, a committed UPDATE of the found row is `updateFirst`,
  and a committed INSERT is appending to the list.
* Platform timestamps are modelled as already-parsed instants (`Nat`); a
  JSON field that is absent (or null) is `none`.
* A caught `IntegrityError` corresponds to the inserted row violating one
  of the schema constraints of models.py: the primary key `message_id`,
  or the non-nullable foreign keys `channel_id -> channels` and
  `user_id -> users` (and, for channels, `server_id -> servers`).
* Attachment/embed/reaction blobs are opaque (`List String`): the code
  stores them verbatim and never inspects them.
-/

namespace Scraper

/-- Apply `f` to the first element of the list satisfying `p`, leaving all
other elements unchanged.  This is the effect of mutating the row returned
by `query(...).first()` and committing. -/
def updateFirst {α : Type*} (p : α → Bool) (f : α → α) : List α → List α
  | [] => []
  | x :: xs => if p x then f x :: xs else x :: updateFirst p f xs

/-- Lexicographic comparison of two character lists, by code point; this is
the order Python uses when sorting path strings. -/
def charListLe : List Char → List Char → Bool
  | [], _ => true
  | _ :: _, [] => false
  | a :: as, b :: bs =>
    if a < b then true
    else if b < a then false
    else charListLe as bs

/-- String comparison used for Python `sorted` over file paths. -/
def strLe (a b : String) : Bool := charListLe a.data b.data

/-- Does `n` occur as an initial segment of `h`? -/
def leadMatch : List Char → List Char → Bool
  | [], _ => true
  | _ :: _, [] => false
  | a :: as, b :: bs => a == b && leadMatch as bs

/-- Does `n` occur as a contiguous segment of `h`?  This is Python's
`n in h` on strings. -/
def subAt (n : List Char) : List Char → Bool
  | [] => n.isEmpty
  | b :: bs => leadMatch n (b :: bs) || subAt n bs

/-- Python `s.lower()`, applied characterwise. -/
def lowerChars (l : List Char) : List Char := l.map Char.toLower

/-! ## Data model (src/db/models.py) -/

/-- A stored row of the `servers` table. -/
structure ServerRow where
  server_id : Nat
  name : String
  icon_url : Option String
  deriving DecidableEq, Repr

/-- A stored row of the `subnets` table. -/
structure SubnetRow where
  id : Nat
  name : String
  description : Option String
  tags : Option (List String)
  deriving DecidableEq, Repr

/-- A stored row of the `channels` table. -/
structure ChannelRow where
  channel_id : Nat
  server_id : Nat
  subnet_id : Option Nat
  name : String
  topic : Option String
  category : Option String
  position : Option Int
  deriving DecidableEq, Repr

/-- A stored row of the `users` table. -/
structure UserRow where
  user_id : Nat
  username : String
  discriminator : Option String
  display_name : Option String
  avatar_url : Option String
  bot : Bool
  deriving DecidableEq, Repr

/-- A stored row of the `messages` table. -/
structure MessageRow where
  message_id : Nat
  channel_id : Nat
  user_id : Nat
  content : String
  timestamp : Nat
  edited_timestamp : Option Nat
  deleted : Bool
  deleted_at : Option Nat
  message_type : String
  mentions : List Nat
  attachments : List String
  embeds : List String
  reactions : List String
  reference_message_id : Option Nat
  deriving DecidableEq, Repr

/-- The relational store acted on by `DatabaseService`. -/
structure DB where
  servers : List ServerRow
  subnets : List SubnetRow
  channels : List ChannelRow
  users : List UserRow
  messages : List MessageRow
  deriving DecidableEq, Repr

/-- Is a message with this identifier stored? -/
def msgIdIn (db : DB) (i : Nat) : Bool :=
  db.messages.any (fun t => t.message_id == i)

/-- Is a channel with this identifier stored? -/
def chanIn (db : DB) (c : Nat) : Bool :=
  db.channels.any (fun t => t.channel_id == c)

/-- Is a user with this identifier stored? -/
def userIn (db : DB) (u : Nat) : Bool :=
  db.users.any (fun t => t.user_id == u)

/-- Is a server with this identifier stored? -/
def serverIn (db : DB) (s : Nat) : Bool :=
  db.servers.any (fun t => t.server_id == s)

/-- Is a subnet with this identifier stored? -/
def subnetIn (db : DB) (k : Nat) : Bool :=
  db.subnets.any (fun t => t.id == k)

/-- Does an optional subnet reference satisfy the
`channels.subnet_id -> subnets.id` foreign key (models.py line 56)?  The
column is nullable, so a null reference always does; a non-null one needs
the referenced subnet row to exist. -/
def subnetOk (db : DB) (subnet : Option Nat) : Bool :=
  match subnet with
  | none => true
  | some k => subnetIn db k

/-! ## DatabaseService operations (src/db/service.py) -/

/-- The field overwrite performed on an existing server row. -/
@[reducible] def serverUpd (nm : String) (icon : Option String) (t : ServerRow) : ServerRow :=
  { t with name := nm, icon_url := icon }

/-- `DatabaseService.upsert_server` (service.py lines 65-77): look the row
up by primary key; overwrite `name` and `icon_url` if present, insert
otherwise. -/
def upsert_server (db : DB) (sid : Nat) (nm : String) (icon : Option String) :
    ServerRow × DB :=
  match db.servers.find? (fun s => s.server_id == sid) with
  | some s =>
      (serverUpd nm icon s,
       { db with servers := updateFirst (fun t => t.server_id == sid) (serverUpd nm icon) db.servers })
  | none =>
      let s : ServerRow := ⟨sid, nm, icon⟩
      (s, { db with servers := db.servers ++ [s] })

/-- The field overwrite performed on an existing channel row
(`server_id` is left as stored). -/
@[reducible] def chanUpd (nm : String) (subnet : Option Nat) (topic category : Option String)
    (position : Option Int) (t : ChannelRow) : ChannelRow :=
  { t with name := nm, subnet_id := subnet, topic := topic,
           category := category, position := position }

/-- `DatabaseService.upsert_channel` (service.py lines 111-136).  The
update branch overwrites `name`, `subnet_id`, `topic`, `category` and
`position`; committing it violates the `channels.subnet_id -> subnets.id`
foreign key (models.py line 56) when a non-null `subnet_id` references no
stored subnet row.  The insert branch adds a new row; its commit violates
that same foreign key under the same condition, and the non-nullable
foreign key `channels.server_id -> servers` when the server row is absent.
In every such case the raised `IntegrityError` propagates to the caller
uncaught, the transaction rolls back and nothing is stored: that outcome
is modelled as `none`. -/
def upsert_channel (db : DB) (cid sid : Nat) (nm : String)
    (subnet : Option Nat) (topic category : Option String) (position : Option Int) :
    Option (ChannelRow × DB) :=
  match db.channels.find? (fun c => c.channel_id == cid) with
  | some c =>
      if subnetOk db subnet then
        some (chanUpd nm subnet topic category position c,
          { db with channels := updateFirst (fun t => t.channel_id == cid) (chanUpd nm subnet topic category position) db.channels })
      else none
  | none =>
      if subnetOk db subnet && serverIn db sid then
        let c : ChannelRow := ⟨cid, sid, subnet, nm, topic, category, position⟩
        some (c, { db with channels := db.channels ++ [c] })
      else none

/-- The field overwrite performed on an existing user row. -/
@[reducible] def userUpd (un : String) (disc dn av : Option String) (bot : Bool)
    (t : UserRow) : UserRow :=
  { t with username := un, discriminator := disc, display_name := dn,
           avatar_url := av, bot := bot }

/-- `DatabaseService.upsert_user` (service.py lines 156-180): look up by
primary key; overwrite every mutable attribute if present, insert a fresh
row otherwise.  The `users` table has no foreign keys, so the operation
always succeeds. -/
def upsert_user (db : DB) (uid : Nat) (un : String)
    (disc dn av : Option String) (bot : Bool) : UserRow × DB :=
  match db.users.find? (fun u => u.user_id == uid) with
  | some u =>
      (userUpd un disc dn av bot u,
       { db with users := updateFirst (fun t => t.user_id == uid) (userUpd un disc dn av bot) db.users })
  | none =>
      let u : UserRow := ⟨uid, un, disc, dn, av, bot⟩
      (u, { db with users := db.users ++ [u] })

/-- `DatabaseService.insert_message` (service.py lines 183-203): attempt
the INSERT; a violated constraint (duplicate `message_id` primary key, or
a foreign key to a missing channel or user row) raises `IntegrityError`,
which the method catches, rolling the write back and returning `None`. -/
def insert_message (db : DB) (m : MessageRow) : Option MessageRow × DB :=
  if db.messages.any (fun t => t.message_id == m.message_id)
      || !(db.channels.any (fun t => t.channel_id == m.channel_id))
      || !(db.users.any (fun t => t.user_id == m.user_id)) then
    (none, db)
  else
    (some m, { db with messages := db.messages ++ [m] })

/-- The keyword arguments accepted by the modelled `update_message` call:
an edit overwrites `content` and/or `edited_timestamp` (service.py sets
any attribute the row has; these are the fields the pipeline uses). -/
structure MsgUpdate where
  content : Option String := none
  edited_timestamp : Option (Option Nat) := none
  deriving DecidableEq, Repr

/-- Apply the supplied keyword arguments to a stored row. -/
def applyUpdate (u : MsgUpdate) (m : MessageRow) : MessageRow :=
  let m1 := match u.content with
    | some c => { m with content := c }
    | none => m
  match u.edited_timestamp with
  | some e => { m1 with edited_timestamp := e }
  | none => m1

/-- `DatabaseService.update_message` (service.py lines 205-216): look the
row up by identifier; apply the fields and return the row if found, return
`None` (leaving the store untouched) otherwise. -/
def update_message (db : DB) (mid : Nat) (u : MsgUpdate) :
    Option MessageRow × DB :=
  match db.messages.find? (fun m => m.message_id == mid) with
  | some m =>
      (some (applyUpdate u m),
       { db with messages := updateFirst (fun t => t.message_id == mid) (applyUpdate u) db.messages })
  | none => (none, db)

/-- The soft-delete mutation applied by `mark_message_deleted`. -/
def setDeleted (now : Nat) (m : MessageRow) : MessageRow :=
  { m with deleted := true, deleted_at := some now }

/-- `DatabaseService.mark_message_deleted` (service.py lines 218-227):
look the row up by identifier; if found set `deleted = True` and
`deleted_at = utcnow()` (the caller-visible clock value `now`) and report
`True`, otherwise report `False` and leave the store untouched. -/
def mark_message_deleted (db : DB) (mid : Nat) (now : Nat) : Bool × DB :=
  match db.messages.find? (fun m => m.message_id == mid) with
  | some _ =>
      (true, { db with messages := updateFirst (fun t => t.message_id == mid) (setDeleted now) db.messages })
  | none => (false, db)

/-- Descending timestamp order used by `order_by(desc(Message.timestamp))`. -/
def tsGe (a b : MessageRow) : Prop := b.timestamp ≤ a.timestamp

instance : DecidableRel tsGe := fun a b => Nat.decLe b.timestamp a.timestamp

instance : IsTotal MessageRow tsGe :=
  ⟨fun a b => Or.symm (Nat.le_total a.timestamp b.timestamp)⟩

instance : IsTrans MessageRow tsGe :=
  ⟨fun _ _ _ hab hbc => Nat.le_trans hbc hab⟩

/-- `DatabaseService.get_messages_by_channel` (service.py lines 243-253):
filter by channel, drop soft-deleted rows unless `include_deleted`, order
by timestamp descending, then apply OFFSET and LIMIT. -/
def get_messages_by_channel (db : DB) (cid : Nat) (limit offset : Nat)
    (include_deleted : Bool) : List MessageRow :=
  let q := db.messages.filter
    (fun m => m.channel_id == cid && (include_deleted || !m.deleted))
  ((List.insertionSort tsGe q).drop offset).take limit

/-! ## Export documents and the per-file import loop
(src/scripts/import_historical_exports.py) -/

/-- The inline `author` object of a raw exported message.  A field the
JSON document does not carry is `none`. -/
structure RawAuthor where
  id : Option Nat
  name : Option String
  discriminator : Option String
  nickname : Option String
  avatarUrl : Option String
  isBot : Option Bool
  deriving DecidableEq, Repr

/-- The `author` value substituted when the record has none:
`msg_data.get('author', {})`. -/
def defaultAuthor : RawAuthor := ⟨none, none, none, none, none, none⟩

/-- One raw message record of an export document.  Timestamp strings are
modelled already parsed; the opaque side-data lists are carried verbatim. -/
structure RawMessage where
  id : Option Nat
  timestamp : Option Nat
  timestampEdited : Option Nat
  content : Option String
  author : Option RawAuthor
  msgType : Option String
  mentions : List Nat
  attachments : List String
  embeds : List String
  reactions : List String
  referenceMessageId : Option Nat
  deriving DecidableEq, Repr

/-- The `channel` object of an export document. -/
structure RawChannel where
  id : Option Nat
  name : Option String
  topic : Option String
  deriving DecidableEq, Repr

/-- The `channel` value substituted when the document has none. -/
def defaultChannel : RawChannel := ⟨none, none, none⟩

/-- One parsed export document: `data.get('channel', {})` and
`data.get('messages', [])`. -/
structure ExportFile where
  channel : Option RawChannel
  messages : List RawMessage
  deriving DecidableEq, Repr

/-- `int(msg_data.get('author', {}).get('id', 0))`. -/
def authorIdOf (msg : RawMessage) : Nat :=
  ((msg.author.getD defaultAuthor).id).getD 0

/-- The user row that upserting this record's author data produces. -/
def userRowOf (msg : RawMessage) : UserRow :=
  let a := msg.author.getD defaultAuthor
  ⟨authorIdOf msg, a.name.getD "Unknown", a.discriminator, a.nickname,
    a.avatarUrl, (a.isBot.getD false)⟩

/-- The author upsert performed for every record of the message loop
(import_historical_exports.py lines 76-88). -/
def authorUpsert (db : DB) (msg : RawMessage) : DB :=
  let a := msg.author.getD defaultAuthor
  (upsert_user db (a.id.getD 0) (a.name.getD "Unknown") a.discriminator
    a.nickname a.avatarUrl (a.isBot.getD false)).2

/-- The message row the import loop builds from a record, given the file's
channel identifier, the record's resolved timestamp and its author id. -/
@[reducible] def rowOfRecord (cid : Nat) (msg : RawMessage) (mid ts aid : Nat) : MessageRow :=
  { message_id := mid
    channel_id := cid
    user_id := aid
    content := msg.content.getD ""
    timestamp := ts
    edited_timestamp := msg.timestampEdited
    deleted := false
    deleted_at := none
    message_type := msg.msgType.getD "Default"
    mentions := msg.mentions
    attachments := msg.attachments
    embeds := msg.embeds
    reactions := msg.reactions
    reference_message_id := msg.referenceMessageId }

/-- The body of the per-message loop of `import_json_file`
(import_historical_exports.py lines 74-132), threading
(store, imported count, skipped-duplicate count).  In source order: upsert
the author; resolve `timestamp` falling back to `timestampEdited`,
skipping the record (with only a log warning) when both are missing; skip
the record when it has no `id` (the `KeyError` is caught by the
per-message handler); insert, bumping `imported_count` on success and
`skipped_count` when the insert reported a duplicate. -/
def process_message (cid : Nat) (st : DB × Nat × Nat) (msg : RawMessage) :
    DB × Nat × Nat :=
  let db := authorUpsert st.1 msg
  match msg.timestamp.or msg.timestampEdited with
  | none => (db, st.2.1, st.2.2)
  | some ts =>
    match msg.id with
    | none => (db, st.2.1, st.2.2)
    | some mid =>
      match insert_message db (rowOfRecord cid msg mid ts (authorIdOf msg)) with
      | (some _, db2) => (db2, st.2.1 + 1, st.2.2)
      | (none, db2) => (db2, st.2.1, st.2.2 + 1)

/-- `int(data.get('channel', {}).get('id', 0))`. -/
def fileCid (f : ExportFile) : Nat := (f.channel.getD defaultChannel).id.getD 0

/-- `data.get('channel', {}).get('name', 'Unknown')`. -/
def fileChanName (f : ExportFile) : String :=
  (f.channel.getD defaultChannel).name.getD "Unknown"

/-- `data.get('channel', {}).get('topic')`. -/
def fileTopic (f : ExportFile) : Option String :=
  (f.channel.getD defaultChannel).topic

/-- The channel upsert performed at the start of the file import
(import_historical_exports.py lines 62-68). -/
def fileUpsert (db : DB) (f : ExportFile) (sid : Nat) : Option (ChannelRow × DB) :=
  upsert_channel db (fileCid f) sid (fileChanName f) none (fileTopic f) none none

/-- `import_json_file(db_service, json_file_path, server_id)`
(import_historical_exports.py lines 34-141) on an already-parsed document:
upsert the channel first, then run the message loop.  If the channel
upsert raises (missing parent server row), the file-level handler catches
the exception and the file contributes nothing.  The result carries the
final store and the two counters the run reports. -/
def importOneFile (db : DB) (f : ExportFile) (server_id : Nat) :
    DB × Nat × Nat :=
  match fileUpsert db f server_id with
  | none => (db, 0, 0)
  | some (_, db1) => f.messages.foldl (process_message (fileCid f)) (db1, 0, 0)

/-! ## Checkpoint tracker and channel classification
(src/scripts/batch_historical_export.py) -/

/-- Folder-name sanitisation of `export_channel` / `get_last_message_id`:
`name.replace('/', '-').replace('\\', '-').replace(':', '-')`. -/
def sanitizeName (s : String) : String :=
  ⟨s.data.map (fun c => if c == '/' || c == '\\' || c == ':' then '-' else c)⟩

/-- The exports directory: for each channel folder, its name and its
`*.json` files, each file carrying its name and its parsed content
(`none` when reading or parsing the file fails). -/
structure ExportsFS where
  dirs : List (String × List (String × Option ExportFile))
  deriving Repr

/-- Path order on files of one folder (Python `sorted` on paths within a
single directory compares the file names). -/
def fileLe (a b : String × Option ExportFile) : Prop := strLe a.1 b.1 = true

instance : DecidableRel fileLe := fun a b => instDecidableEqBool (strLe a.1 b.1) true

/-- `get_last_message_id(channel_name)` (batch_historical_export.py lines
63-91): `None` without a channel folder or without JSON files in it;
otherwise read the path-wise last file and report the `id` of its final
message entry, with `None` on a read failure or an empty message list. -/
def get_last_message_id (fs : ExportsFS) (channel_name : String) : Option Nat :=
  match fs.dirs.find? (fun d => d.1 == sanitizeName channel_name) with
  | none => none
  | some d =>
    match (List.insertionSort fileLe d.2).getLast? with
    | none => none
    | some (_, none) => none
    | some (_, some data) =>
      match data.messages.getLast? with
      | none => none
      | some m => m.id

/-- `check_already_exported(channel_name)` (batch_historical_export.py
lines 93-99): scan the entries of the exports directory and report whether
any entry name contains the channel name, case-insensitively. -/
def check_already_exported (entries : List String) (channel_name : String) : Bool :=
  entries.any (fun item => subAt (lowerChars channel_name.data) (lowerChars item.data))

/-- One configured channel, as read from config/subnets.yaml. -/
structure ChannelCfg where
  name : String
  channel_id : String
  deriving DecidableEq, Repr

/-- The four buckets the batch exporter's main loop sorts channels into. -/
structure Classified where
  toExport : List ChannelCfg
  alreadyExported : List String
  resumeList : List String
  skippedForbidden : List String
  deriving DecidableEq, Repr

/-- The body of the classification loop of `main`
(batch_historical_export.py lines 220-236). -/
def classifyStep (entries : List String) (skip_list : List String)
    (resume_mode : Bool) (acc : Classified) (ch : ChannelCfg) : Classified :=
  if skip_list.contains ch.channel_id then
    { acc with skippedForbidden := acc.skippedForbidden ++ [ch.name] }
  else
    let is_exported := check_already_exported entries ch.name
    if resume_mode && is_exported then
      { acc with resumeList := acc.resumeList ++ [ch.name],
                 toExport := acc.toExport ++ [ch] }
    else if !resume_mode && is_exported then
      { acc with alreadyExported := acc.alreadyExported ++ [ch.name] }
    else
      { acc with toExport := acc.toExport ++ [ch] }

/-- The classification loop of `main` over the configured channel list. -/
def classify_channels (entries : List String) (skip_list : List String)
    (resume_mode : Bool) (channels : List ChannelCfg) : Classified :=
  channels.foldl (classifyStep entries skip_list resume_mode) ⟨[], [], [], []⟩

/-! ## Lemmas about `updateFirst` -/

theorem updateFirst_length {α : Type*} (p : α → Bool) (f : α → α) (l : List α) :
    (updateFirst p f l).length = l.length := by
  induction l with
  | nil => rfl
  | cons x xs ih =>
      simp only [updateFirst]
      by_cases h : p x = true
      · simp [h]
      · simp [h, ih]

theorem find?_updateFirst_self {α : Type*} {p : α → Bool} {f : α → α} {l : List α} {x : α}
    (hp : ∀ a, p a = true → p (f a) = true) (h : l.find? p = some x) :
    (updateFirst p f l).find? p = some (f x) := by
  induction l with
  | nil => simp at h
  | cons y ys ih =>
      by_cases hy : p y = true
      · rw [List.find?_cons_of_pos _ hy] at h
        cases h
        simp [updateFirst, hy, List.find?_cons_of_pos _ (hp _ hy)]
      · rw [List.find?_cons_of_neg _ hy] at h
        simp [updateFirst, hy, List.find?_cons_of_neg _ hy, ih h]

theorem find?_updateFirst_frame {α : Type*} {p q : α → Bool} {f : α → α} {l : List α}
    (hd : ∀ a, p a = true → q a = false ∧ q (f a) = false) :
    (updateFirst p f l).find? q = l.find? q := by
  induction l with
  | nil => rfl
  | cons y ys ih =>
      by_cases hy : p y = true
      · have h1 := (hd y hy).1
        have h2 := (hd y hy).2
        simp [updateFirst, hy, List.find?_cons_of_neg, h1, h2]
      · simp only [updateFirst, if_neg hy]
        by_cases hq : q y = true
        · simp [List.find?_cons_of_pos _ hq]
        · simp [List.find?_cons_of_neg _ hq, ih]

theorem updateFirst_idem {α : Type*} {p : α → Bool} {f : α → α} (l : List α)
    (hp : ∀ a, p (f a) = p a) (hf : ∀ a, f (f a) = f a) :
    updateFirst p f (updateFirst p f l) = updateFirst p f l := by
  induction l with
  | nil => rfl
  | cons y ys ih =>
      by_cases hy : p y = true
      · simp [updateFirst, hy, hp, hf]
      · simp [updateFirst, hy, ih]

theorem updateFirst_append_singleton {α : Type*} {p : α → Bool} {f : α → α}
    {l : List α} (h : ∀ a ∈ l, p a = false) (x : α) (hx : p x = true) :
    updateFirst p f (l ++ [x]) = l ++ [f x] := by
  induction l with
  | nil => simp [updateFirst, hx]
  | cons y ys ih =>
      have hy : p y = false := h y (by simp)
      simp only [List.cons_append, updateFirst, hy]
      simp only [Bool.false_eq_true, if_false, List.cons.injEq, true_and]
      exact ih (fun a ha => h a (by simp [ha]))

theorem mem_updateFirst {α : Type*} {p : α → Bool} {f : α → α} {l : List α} {y : α}
    (h : y ∈ updateFirst p f l) : y ∈ l ∨ ∃ x, x ∈ l ∧ p x = true ∧ y = f x := by
  induction l with
  | nil => simp [updateFirst] at h
  | cons z zs ih =>
      by_cases hz : p z = true
      · simp only [updateFirst, if_pos hz, List.mem_cons] at h
        rcases h with h | h
        · exact Or.inr ⟨z, by simp, hz, h⟩
        · exact Or.inl (by simp [h])
      · simp only [updateFirst, if_neg hz, List.mem_cons] at h
        rcases h with h | h
        · exact Or.inl (by simp [h])
        · rcases ih h with h1 | ⟨x, hx, hpx, hyx⟩
          · exact Or.inl (by simp [h1])
          · exact Or.inr ⟨x, by simp [hx], hpx, hyx⟩

/-! ## Lemmas about the store operations -/

theorem upsert_user_frame (db : DB) (uid : Nat) (un : String)
    (disc dn av : Option String) (bot : Bool) :
    (upsert_user db uid un disc dn av bot).2.servers = db.servers ∧
    (upsert_user db uid un disc dn av bot).2.channels = db.channels ∧
    (upsert_user db uid un disc dn av bot).2.messages = db.messages := by
  unfold upsert_user
  cases h : db.users.find? (fun u => u.user_id == uid) <;> simp [h]

theorem find?_upsert_user_self (db : DB) (uid : Nat) (un : String)
    (disc dn av : Option String) (bot : Bool) :
    (upsert_user db uid un disc dn av bot).2.users.find? (fun u => u.user_id == uid)
      = some ⟨uid, un, disc, dn, av, bot⟩ := by
  unfold upsert_user
  cases h : db.users.find? (fun u => u.user_id == uid) with
  | none =>
      simp only
      rw [List.find?_append, h]
      simp
  | some u =>
      have hu := List.find?_some h
      have hid : u.user_id = uid := by simpa using hu
      simp only [h]
      have hstep := find?_updateFirst_self (p := fun t : UserRow => t.user_id == uid) (f := userUpd un disc dn av bot) (fun a ha => ha) h
      exact hstep.trans (by simp [userUpd, hid])

theorem find?_upsert_user_frame (db : DB) (uid : Nat) (un : String)
    (disc dn av : Option String) (bot : Bool) (v : Nat) (hv : v ≠ uid) :
    (upsert_user db uid un disc dn av bot).2.users.find? (fun u => u.user_id == v)
      = db.users.find? (fun u => u.user_id == v) := by
  unfold upsert_user
  cases h : db.users.find? (fun u => u.user_id == uid) with
  | none =>
      simp only
      rw [List.find?_append]
      have : (List.find? (fun u => u.user_id == v) [(⟨uid, un, disc, dn, av, bot⟩ : UserRow)]) = none := by
        simp [Ne.symm hv]
      rw [this, Option.or_none]
  | some u =>
      simp only
      refine find?_updateFirst_frame (fun a ha => ?_)
      have hid : a.user_id = uid := by simpa using ha
      constructor <;> simp [hid, Ne.symm hv]

theorem upsert_channel_frame (db : DB) (cid sid : Nat) (nm : String)
    (subnet : Option Nat) (topic category : Option String) (position : Option Int)
    (c : ChannelRow) (db1 : DB)
    (h : upsert_channel db cid sid nm subnet topic category position = some (c, db1)) :
    db1.servers = db.servers ∧ db1.users = db.users ∧ db1.messages = db.messages := by
  unfold upsert_channel at h
  cases hf : db.channels.find? (fun t => t.channel_id == cid) with
  | some x =>
      rw [hf] at h
      by_cases hsn : subnetOk db subnet
      · simp only [hsn, if_true, Option.some.injEq, Prod.mk.injEq] at h
        rw [← h.2]; exact ⟨rfl, rfl, rfl⟩
      · simp [hsn] at h
  | none =>
      rw [hf] at h
      by_cases hc : (subnetOk db subnet && serverIn db sid)
      · simp only [hc, if_true, Option.some.injEq, Prod.mk.injEq] at h
        rw [← h.2]; exact ⟨rfl, rfl, rfl⟩
      · simp [hc] at h

theorem upsert_channel_isSome_of_found (db : DB) (cid sid : Nat) (nm : String)
    (subnet : Option Nat) (topic category : Option String) (position : Option Int)
    (h : (db.channels.find? (fun t => t.channel_id == cid)).isSome)
    (hsub : subnetOk db subnet = true) :
    (upsert_channel db cid sid nm subnet topic category position).isSome := by
  unfold upsert_channel
  cases hf : db.channels.find? (fun t => t.channel_id == cid) with
  | some x => simp [hsub]
  | none => rw [hf] at h; simp at h

theorem upsert_channel_isSome_of_server (db : DB) (cid sid : Nat) (nm : String)
    (subnet : Option Nat) (topic category : Option String) (position : Option Int)
    (hs : serverIn db sid = true) (hsub : subnetOk db subnet = true) :
    (upsert_channel db cid sid nm subnet topic category position).isSome := by
  unfold upsert_channel
  cases hf : db.channels.find? (fun t => t.channel_id == cid) with
  | some x => simp [hsub]
  | none => simp [hs, hsub]

theorem find?_upsert_channel_self (db : DB) (cid sid : Nat) (nm : String)
    (subnet : Option Nat) (topic category : Option String) (position : Option Int)
    (c : ChannelRow) (db1 : DB)
    (h : upsert_channel db cid sid nm subnet topic category position = some (c, db1)) :
    ∃ crow : ChannelRow,
      db1.channels.find? (fun t => t.channel_id == cid) = some crow ∧
      crow.channel_id = cid ∧ crow.name = nm ∧ crow.subnet_id = subnet ∧
      crow.topic = topic ∧ crow.category = category ∧ crow.position = position := by
  unfold upsert_channel at h
  cases hf : db.channels.find? (fun t => t.channel_id == cid) with
  | some x =>
      rw [hf] at h
      by_cases hsn : subnetOk db subnet
      · simp only [hsn, if_true, Option.some.injEq, Prod.mk.injEq] at h
        have hid : x.channel_id = cid := by
          have hx := List.find?_some hf
          simpa using hx
        refine ⟨{ x with name := nm, subnet_id := subnet, topic := topic, category := category, position := position }, ?_, by simpa using hid, rfl, rfl, rfl, rfl, rfl⟩
        rw [← h.2]
        exact find?_updateFirst_self (fun a ha => ha) hf
      · simp [hsn] at h
  | none =>
      rw [hf] at h
      by_cases hc : (subnetOk db subnet && serverIn db sid)
      · simp only [hc, if_true, Option.some.injEq, Prod.mk.injEq] at h
        refine ⟨⟨cid, sid, subnet, nm, topic, category, position⟩, ?_, rfl, rfl, rfl, rfl, rfl, rfl⟩
        rw [← h.2]
        simp only
        rw [List.find?_append, hf]
        simp
      · simp [hc] at h

theorem insert_message_frame (db : DB) (m : MessageRow) :
    (insert_message db m).2.servers = db.servers ∧
    (insert_message db m).2.channels = db.channels ∧
    (insert_message db m).2.users = db.users := by
  unfold insert_message
  by_cases h : (db.messages.any (fun t => t.message_id == m.message_id)
      || !(db.channels.any (fun t => t.channel_id == m.channel_id))
      || !(db.users.any (fun t => t.user_id == m.user_id))) = true
  · simp [h]
  · simp [h]

theorem insert_message_none_state (db : DB) (m : MessageRow)
    (h : (insert_message db m).1 = none) : (insert_message db m).2 = db := by
  unfold insert_message at *
  by_cases hc : (db.messages.any (fun t => t.message_id == m.message_id)
      || !(db.channels.any (fun t => t.channel_id == m.channel_id))
      || !(db.users.any (fun t => t.user_id == m.user_id))) = true
  · simp [hc]
  · simp [hc] at h

theorem insert_message_ok (db : DB) (m : MessageRow)
    (h1 : msgIdIn db m.message_id = false)
    (h2 : chanIn db m.channel_id = true)
    (h3 : userIn db m.user_id = true) :
    insert_message db m = (some m, ⟨db.servers, db.subnets, db.channels, db.users, db.messages ++ [m]⟩) := by
  unfold insert_message
  unfold msgIdIn at h1; unfold chanIn at h2; unfold userIn at h3
  simp [h1, h2, h3]

theorem insert_message_none_iff (db : DB) (m : MessageRow) :
    (insert_message db m).1 = none ↔
      (msgIdIn db m.message_id = true ∨ chanIn db m.channel_id = false ∨
        userIn db m.user_id = false) := by
  unfold insert_message msgIdIn chanIn userIn
  by_cases h1 : db.messages.any (fun t => t.message_id == m.message_id) = true
  · simp [h1]
  · by_cases h2 : db.channels.any (fun t => t.channel_id == m.channel_id) = true
    · by_cases h3 : db.users.any (fun t => t.user_id == m.user_id) = true
      · simp [h1, h2, h3]
      · simp [h1, h2, h3]
    · simp [h1, h2]

/-! ## Lemmas about the per-message import step -/

theorem any_eq_isSome_find? {α : Type*} (l : List α) (p : α → Bool) :
    l.any p = (l.find? p).isSome := by
  induction l with
  | nil => rfl
  | cons x xs ih =>
      by_cases h : p x = true
      · simp [h, List.find?_cons_of_pos _ h]
      · simp [List.any_cons, h, List.find?_cons_of_neg _ h, ih]

theorem authorUpsert_frame (db : DB) (m : RawMessage) :
    (authorUpsert db m).servers = db.servers ∧
    (authorUpsert db m).channels = db.channels ∧
    (authorUpsert db m).messages = db.messages := by
  unfold authorUpsert
  exact upsert_user_frame db _ _ _ _ _ _

theorem authorUpsert_find_self (db : DB) (m : RawMessage) :
    (authorUpsert db m).users.find? (fun t => t.user_id == authorIdOf m)
      = some (userRowOf m) := by
  unfold authorUpsert userRowOf
  exact find?_upsert_user_self db _ _ _ _ _ _

theorem authorUpsert_find_frame (db : DB) (m : RawMessage) (v : Nat)
    (hv : v ≠ authorIdOf m) :
    (authorUpsert db m).users.find? (fun t => t.user_id == v)
      = db.users.find? (fun t => t.user_id == v) := by
  unfold authorUpsert
  exact find?_upsert_user_frame db _ _ _ _ _ _ v hv

theorem userIn_authorUpsert_self (db : DB) (m : RawMessage) :
    userIn (authorUpsert db m) (authorIdOf m) = true := by
  unfold userIn
  rw [any_eq_isSome_find?, authorUpsert_find_self]
  rfl

theorem chanIn_authorUpsert (db : DB) (m : RawMessage) (c : Nat) :
    chanIn (authorUpsert db m) c = chanIn db c := by
  unfold chanIn
  rw [(authorUpsert_frame db m).2.1]

theorem msgIdIn_authorUpsert (db : DB) (m : RawMessage) (i : Nat) :
    msgIdIn (authorUpsert db m) i = msgIdIn db i := by
  unfold msgIdIn
  rw [(authorUpsert_frame db m).2.2]

theorem process_message_eq_skip (cid : Nat) (st : DB × Nat × Nat) (m : RawMessage)
    (h : m.timestamp.or m.timestampEdited = none) :
    process_message cid st m = (authorUpsert st.1 m, st.2.1, st.2.2) := by
  unfold process_message
  rw [h]

theorem process_message_eq_noid (cid : Nat) (st : DB × Nat × Nat) (m : RawMessage)
    (ts : Nat) (h : m.timestamp.or m.timestampEdited = some ts) (hid : m.id = none) :
    process_message cid st m = (authorUpsert st.1 m, st.2.1, st.2.2) := by
  unfold process_message
  rw [h, hid]

theorem process_message_eq_noins (cid : Nat) (st : DB × Nat × Nat) (m : RawMessage)
    (ts i : Nat) (h : m.timestamp.or m.timestampEdited = some ts) (hid : m.id = some i)
    (hv : msgIdIn st.1 i = true ∨ chanIn st.1 cid = false ∨
      userIn (authorUpsert st.1 m) (authorIdOf m) = false) :
    process_message cid st m = (authorUpsert st.1 m, st.2.1, st.2.2 + 1) := by
  unfold process_message
  rw [h, hid]
  dsimp only
  have h1 : (insert_message (authorUpsert st.1 m) (rowOfRecord cid m i ts (authorIdOf m))).1 = none := by
    refine (insert_message_none_iff _ _).mpr ?_
    rcases hv with hv | hv | hv
    · exact Or.inl (by rw [msgIdIn_authorUpsert]; exact hv)
    · exact Or.inr (Or.inl (by rw [chanIn_authorUpsert]; exact hv))
    · exact Or.inr (Or.inr hv)
  have h2 := insert_message_none_state _ _ h1
  have h3 : insert_message (authorUpsert st.1 m) (rowOfRecord cid m i ts (authorIdOf m))
      = (none, authorUpsert st.1 m) := Prod.ext h1 h2
  rw [h3]

theorem process_message_eq_ins (cid : Nat) (st : DB × Nat × Nat) (m : RawMessage)
    (ts i : Nat) (h : m.timestamp.or m.timestampEdited = some ts) (hid : m.id = some i)
    (hfresh : msgIdIn st.1 i = false) (hchan : chanIn st.1 cid = true) :
    process_message cid st m =
      (⟨(authorUpsert st.1 m).servers, (authorUpsert st.1 m).subnets,
        (authorUpsert st.1 m).channels, (authorUpsert st.1 m).users,
        (authorUpsert st.1 m).messages ++ [rowOfRecord cid m i ts (authorIdOf m)]⟩,
       st.2.1 + 1, st.2.2) := by
  unfold process_message
  rw [h, hid]
  dsimp only
  have hins := insert_message_ok (authorUpsert st.1 m) (rowOfRecord cid m i ts (authorIdOf m))
    (by rw [msgIdIn_authorUpsert]; exact hfresh)
    (by rw [chanIn_authorUpsert]; exact hchan)
    (userIn_authorUpsert_self st.1 m)
  rw [hins]

theorem msgIdIn_iff (db : DB) (i : Nat) :
    msgIdIn db i = true ↔ i ∈ db.messages.map (fun t => t.message_id) := by
  unfold msgIdIn
  rw [List.any_eq_true]
  constructor
  · rintro ⟨x, hx, hpx⟩
    exact List.mem_map.mpr ⟨x, hx, by simpa using hpx⟩
  · intro hmem
    rcases List.mem_map.mp hmem with ⟨x, hx, hid⟩
    exact ⟨x, hx, by simpa using hid⟩

theorem msgIdIn_append (sv : List ServerRow) (sn : List SubnetRow) (ch : List ChannelRow)
    (us : List UserRow) (ms : List MessageRow) (x : MessageRow) (j : Nat) :
    msgIdIn ⟨sv, sn, ch, us, ms ++ [x]⟩ j = (msgIdIn ⟨sv, sn, ch, us, ms⟩ j || (x.message_id == j)) := by
  unfold msgIdIn
  simp [List.any_append]

theorem process_message_frame (cid : Nat) (st : DB × Nat × Nat) (m : RawMessage) :
    (process_message cid st m).1.channels = st.1.channels ∧
    (process_message cid st m).1.servers = st.1.servers := by
  rcases hts : m.timestamp.or m.timestampEdited with _ | ts
  · rw [process_message_eq_skip _ _ _ hts]
    exact ⟨(authorUpsert_frame _ _).2.1, (authorUpsert_frame _ _).1⟩
  · rcases hid : m.id with _ | i
    · rw [process_message_eq_noid _ _ _ _ hts hid]
      exact ⟨(authorUpsert_frame _ _).2.1, (authorUpsert_frame _ _).1⟩
    · cases hdup : msgIdIn st.1 i with
      | true =>
          rw [process_message_eq_noins _ _ _ _ _ hts hid (Or.inl hdup)]
          exact ⟨(authorUpsert_frame _ _).2.1, (authorUpsert_frame _ _).1⟩
      | false =>
          cases hchan : chanIn st.1 cid with
          | false =>
              rw [process_message_eq_noins _ _ _ _ _ hts hid (Or.inr (Or.inl hchan))]
              exact ⟨(authorUpsert_frame _ _).2.1, (authorUpsert_frame _ _).1⟩
          | true =>
              rw [process_message_eq_ins _ _ _ _ _ hts hid hdup hchan]
              exact ⟨(authorUpsert_frame _ _).2.1, (authorUpsert_frame _ _).1⟩

theorem process_message_extend (cid : Nat) (st : DB × Nat × Nat) (m : RawMessage) :
    ∃ new : List MessageRow,
      (process_message cid st m).1.messages = st.1.messages ++ new ∧
      ∀ x ∈ new, x.channel_id = cid ∧ x.user_id = authorIdOf m ∧ m.id = some x.message_id := by
  rcases hts : m.timestamp.or m.timestampEdited with _ | ts
  · rw [process_message_eq_skip _ _ _ hts]
    exact ⟨[], by simp [(authorUpsert_frame _ _).2.2], by simp⟩
  · rcases hid : m.id with _ | i
    · rw [process_message_eq_noid _ _ _ _ hts hid]
      exact ⟨[], by simp [(authorUpsert_frame _ _).2.2], by simp⟩
    · cases hdup : msgIdIn st.1 i with
      | true =>
          rw [process_message_eq_noins _ _ _ _ _ hts hid (Or.inl hdup)]
          exact ⟨[], by simp [(authorUpsert_frame _ _).2.2], by simp⟩
      | false =>
          cases hchan : chanIn st.1 cid with
          | false =>
              rw [process_message_eq_noins _ _ _ _ _ hts hid (Or.inr (Or.inl hchan))]
              exact ⟨[], by simp [(authorUpsert_frame _ _).2.2], by simp⟩
          | true =>
              rw [process_message_eq_ins _ _ _ _ _ hts hid hdup hchan]
              refine ⟨[rowOfRecord cid m i ts (authorIdOf m)], ?_, ?_⟩
              · simp [(authorUpsert_frame _ _).2.2]
              · intro x hx
                rcases List.mem_singleton.mp hx with rfl
                exact ⟨rfl, rfl, rfl⟩

theorem process_message_mono (cid : Nat) (st : DB × Nat × Nat) (m : RawMessage)
    (j : Nat) (h : msgIdIn st.1 j = true) :
    msgIdIn (process_message cid st m).1 j = true := by
  rcases process_message_extend cid st m with ⟨new, hext, _⟩
  rw [msgIdIn_iff] at h ⊢
  rw [hext]
  simp only [List.map_append, List.mem_append]
  exact Or.inl h

theorem process_message_ids_sub (cid : Nat) (st : DB × Nat × Nat) (m : RawMessage)
    (j : Nat) (h : msgIdIn (process_message cid st m).1 j = true) :
    msgIdIn st.1 j = true ∨ m.id = some j := by
  rcases process_message_extend cid st m with ⟨new, hext, hprop⟩
  rw [msgIdIn_iff, hext] at h
  simp only [List.map_append, List.mem_append] at h
  rcases h with h | h
  · exact Or.inl ((msgIdIn_iff st.1 j).mpr h)
  · rcases List.mem_map.mp h with ⟨x, hx, hxid⟩
    exact Or.inr (hxid ▸ (hprop x hx).2.2)

theorem process_message_wfid (cid : Nat) (st : DB × Nat × Nat) (m : RawMessage)
    (ts i : Nat) (hts : m.timestamp.or m.timestampEdited = some ts) (hid : m.id = some i)
    (hchan : chanIn st.1 cid = true) :
    msgIdIn (process_message cid st m).1 i = true := by
  cases hdup : msgIdIn st.1 i with
  | true =>
      rw [process_message_eq_noins _ _ _ _ _ hts hid (Or.inl hdup)]
      simp only
      rw [msgIdIn_authorUpsert]
      exact hdup
  | false =>
      rw [process_message_eq_ins _ _ _ _ _ hts hid hdup hchan]
      simp only
      rw [msgIdIn_append]
      simp

theorem process_message_nodup (cid : Nat) (st : DB × Nat × Nat) (m : RawMessage)
    (hnd : (st.1.messages.map (fun t => t.message_id)).Nodup) :
    ((process_message cid st m).1.messages.map (fun t => t.message_id)).Nodup := by
  rcases hts : m.timestamp.or m.timestampEdited with _ | ts
  · rw [process_message_eq_skip _ _ _ hts]
    simpa [(authorUpsert_frame _ _).2.2] using hnd
  · rcases hid : m.id with _ | i
    · rw [process_message_eq_noid _ _ _ _ hts hid]
      simpa [(authorUpsert_frame _ _).2.2] using hnd
    · cases hdup : msgIdIn st.1 i with
      | true =>
          rw [process_message_eq_noins _ _ _ _ _ hts hid (Or.inl hdup)]
          simpa [(authorUpsert_frame _ _).2.2] using hnd
      | false =>
          cases hchan : chanIn st.1 cid with
          | false =>
              rw [process_message_eq_noins _ _ _ _ _ hts hid (Or.inr (Or.inl hchan))]
              simpa [(authorUpsert_frame _ _).2.2] using hnd
          | true =>
              rw [process_message_eq_ins _ _ _ _ _ hts hid hdup hchan]
              simp only [(authorUpsert_frame _ _).2.2, List.map_append]
              rw [List.nodup_append]
              refine ⟨hnd, List.nodup_singleton _, ?_⟩
              intro a ha hb
              simp only [rowOfRecord, List.map_cons, List.map_nil, List.mem_singleton] at hb
              rw [hb] at ha
              have hfresh := (msgIdIn_iff st.1 i).mpr ha
              rw [hfresh] at hdup
              exact Bool.true_eq_false.mp hdup

/-! ## Lemmas about the message-loop fold -/

theorem process_message_users (cid : Nat) (st : DB × Nat × Nat) (m : RawMessage) :
    (process_message cid st m).1.users = (authorUpsert st.1 m).users := by
  rcases hts : m.timestamp.or m.timestampEdited with _ | ts
  · rw [process_message_eq_skip _ _ _ hts]
  · rcases hid : m.id with _ | i
    · rw [process_message_eq_noid _ _ _ _ hts hid]
    · cases hdup : msgIdIn st.1 i with
      | true => rw [process_message_eq_noins _ _ _ _ _ hts hid (Or.inl hdup)]
      | false =>
          cases hchan : chanIn st.1 cid with
          | false => rw [process_message_eq_noins _ _ _ _ _ hts hid (Or.inr (Or.inl hchan))]
          | true => rw [process_message_eq_ins _ _ _ _ _ hts hid hdup hchan]

theorem fold_frame (cid : Nat) :
    ∀ (ms : List RawMessage) (st : DB × Nat × Nat),
      (ms.foldl (process_message cid) st).1.channels = st.1.channels ∧
      (ms.foldl (process_message cid) st).1.servers = st.1.servers
  | [], st => ⟨rfl, rfl⟩
  | m :: ms, st => by
      rw [List.foldl_cons]
      have hstep := process_message_frame cid st m
      have hrec := fold_frame cid ms (process_message cid st m)
      exact ⟨hrec.1.trans hstep.1, hrec.2.trans hstep.2⟩

theorem fold_chanIn (cid c : Nat) (ms : List RawMessage) (st : DB × Nat × Nat) :
    chanIn (ms.foldl (process_message cid) st).1 c = chanIn st.1 c := by
  unfold chanIn
  rw [(fold_frame cid ms st).1]

theorem fold_extend (cid : Nat) :
    ∀ (ms : List RawMessage) (st : DB × Nat × Nat),
      ∃ new : List MessageRow,
        (ms.foldl (process_message cid) st).1.messages = st.1.messages ++ new ∧
        ∀ x ∈ new, x.channel_id = cid ∧ ∃ rec ∈ ms, x.user_id = authorIdOf rec ∧ rec.id = some x.message_id
  | [], st => ⟨[], by simp, by simp⟩
  | m :: ms, st => by
      rw [List.foldl_cons]
      rcases process_message_extend cid st m with ⟨n1, h1, hp1⟩
      rcases fold_extend cid ms (process_message cid st m) with ⟨n2, h2, hp2⟩
      refine ⟨n1 ++ n2, ?_, ?_⟩
      · rw [h2, h1, List.append_assoc]
      · intro x hx
        rcases List.mem_append.mp hx with hx | hx
        · rcases hp1 x hx with ⟨ha, hb, hc⟩
          exact ⟨ha, m, by simp, hb, hc⟩
        · rcases hp2 x hx with ⟨ha, rec, hrec, hb⟩
          exact ⟨ha, rec, by simp [hrec], hb⟩

theorem fold_mono (cid : Nat) :
    ∀ (ms : List RawMessage) (st : DB × Nat × Nat) (j : Nat),
      msgIdIn st.1 j = true →
      msgIdIn (ms.foldl (process_message cid) st).1 j = true
  | [], _, _, h => h
  | m :: ms, st, j, h => by
      rw [List.foldl_cons]
      exact fold_mono cid ms _ j (process_message_mono cid st m j h)

theorem fold_wf_ids (cid : Nat) :
    ∀ (ms : List RawMessage) (st : DB × Nat × Nat),
      chanIn st.1 cid = true →
      ∀ m ∈ ms, ∀ i ts, m.id = some i → m.timestamp.or m.timestampEdited = some ts →
        msgIdIn (ms.foldl (process_message cid) st).1 i = true
  | [], _, _, m, hm => by simp at hm
  | m :: ms, st, hchan, m2, hm2 => by
      intro i ts hid hts
      rw [List.foldl_cons]
      rcases List.mem_cons.mp hm2 with rfl | hm2
      · exact fold_mono cid ms _ i (process_message_wfid cid st m2 ts i hts hid hchan)
      · have hchan2 : chanIn (process_message cid st m).1 cid = true := by
          unfold chanIn
          rw [(process_message_frame cid st m).1]
          exact hchan
        exact fold_wf_ids cid ms _ hchan2 m2 hm2 i ts hid hts

theorem fold_ids_sub (cid : Nat) :
    ∀ (ms : List RawMessage) (st : DB × Nat × Nat) (j : Nat),
      msgIdIn (ms.foldl (process_message cid) st).1 j = true →
      msgIdIn st.1 j = true ∨ ∃ m ∈ ms, m.id = some j
  | [], _, _, h => Or.inl h
  | m :: ms, st, j, h => by
      rw [List.foldl_cons] at h
      rcases fold_ids_sub cid ms _ j h with h2 | ⟨m2, hm2, hid2⟩
      · rcases process_message_ids_sub cid st m j h2 with h3 | h3
        · exact Or.inl h3
        · exact Or.inr ⟨m, by simp, h3⟩
      · exact Or.inr ⟨m2, by simp [hm2], hid2⟩

theorem fold_nodup (cid : Nat) :
    ∀ (ms : List RawMessage) (st : DB × Nat × Nat),
      (st.1.messages.map (fun t => t.message_id)).Nodup →
      ((ms.foldl (process_message cid) st).1.messages.map (fun t => t.message_id)).Nodup
  | [], _, h => h
  | m :: ms, st, h => by
      rw [List.foldl_cons]
      exact fold_nodup cid ms _ (process_message_nodup cid st m h)

theorem fold_skip_all (cid : Nat) :
    ∀ (ms : List RawMessage) (st : DB × Nat × Nat),
      (∀ m ∈ ms, ∃ i ts, m.id = some i ∧ m.timestamp.or m.timestampEdited = some ts ∧
        msgIdIn st.1 i = true) →
      (ms.foldl (process_message cid) st).1.messages = st.1.messages ∧
      (ms.foldl (process_message cid) st).2.1 = st.2.1 ∧
      (ms.foldl (process_message cid) st).2.2 = st.2.2 + ms.length
  | [], st, _ => ⟨rfl, rfl, rfl⟩
  | m :: ms, st, h => by
      rw [List.foldl_cons]
      rcases h m (by simp) with ⟨i, ts, hid, hts, hdup⟩
      have hstep := process_message_eq_noins cid st m ts i hts hid (Or.inl hdup)
      have hmsg : (process_message cid st m).1.messages = st.1.messages := by
        rw [hstep]
        exact (authorUpsert_frame st.1 m).2.2
      have hrec := fold_skip_all cid ms (process_message cid st m) (by
        intro m2 hm2
        rcases h m2 (by simp [hm2]) with ⟨i2, ts2, hid2, hts2, hdup2⟩
        refine ⟨i2, ts2, hid2, hts2, ?_⟩
        unfold msgIdIn
        rw [hmsg]
        exact hdup2)
      refine ⟨hrec.1.trans hmsg, ?_, ?_⟩
      · rw [hrec.2.1, hstep]
      · rw [hrec.2.2, hstep]
        simp only [List.length_cons]
        omega

theorem fold_insert_all (cid : Nat) :
    ∀ (ms : List RawMessage) (st : DB × Nat × Nat),
      chanIn st.1 cid = true →
      (∀ m ∈ ms, ∃ i ts, m.id = some i ∧ m.timestamp.or m.timestampEdited = some ts) →
      ((ms.filterMap (fun m => m.id)).Nodup) →
      (∀ j ∈ ms.filterMap (fun m => m.id), msgIdIn st.1 j = false) →
      (ms.foldl (process_message cid) st).1.messages.length = st.1.messages.length + ms.length ∧
      (ms.foldl (process_message cid) st).2.1 = st.2.1 + ms.length ∧
      (ms.foldl (process_message cid) st).2.2 = st.2.2
  | [], st, _, _, _, _ => ⟨rfl, rfl, rfl⟩
  | m :: ms, st, hchan, hwf, hnd, hfresh => by
      rw [List.foldl_cons]
      rcases hwf m (by simp) with ⟨i, ts, hid, hts⟩
      have hmem : i ∈ (m :: ms).filterMap (fun m => m.id) := by
        simp [List.filterMap_cons, hid]
      have hf : msgIdIn st.1 i = false := hfresh i hmem
      have hstep := process_message_eq_ins cid st m ts i hts hid hf hchan
      have hmsg : (process_message cid st m).1.messages
          = st.1.messages ++ [rowOfRecord cid m i ts (authorIdOf m)] := by
        rw [hstep]
        simp [(authorUpsert_frame st.1 m).2.2]
      have hchan2 : chanIn (process_message cid st m).1 cid = true := by
        unfold chanIn
        rw [(process_message_frame cid st m).1]
        exact hchan
      have hndtail : (ms.filterMap (fun m => m.id)).Nodup := by
        rw [List.filterMap_cons, hid] at hnd
        exact hnd.of_cons
      have hfreshtail : ∀ j ∈ ms.filterMap (fun m => m.id),
          msgIdIn (process_message cid st m).1 j = false := by
        intro j hj
        have hji : i ≠ j := by
          rw [List.filterMap_cons, hid] at hnd
          intro he
          subst he
          exact (List.nodup_cons.mp hnd).1 hj
        have hjf : msgIdIn st.1 j = false := hfresh j (by simp [List.filterMap_cons, hid, hj])
        cases hdb : (process_message cid st m).1 with
        | mk sv sn ch us msl =>
            have : msl = st.1.messages ++ [rowOfRecord cid m i ts (authorIdOf m)] := by
              rw [← hmsg, hdb]
            subst this
            rw [msgIdIn_append]
            have h1 : msgIdIn ⟨sv, sn, ch, us, st.1.messages⟩ j = false := by
              unfold msgIdIn at hjf ⊢
              exact hjf
            rw [h1]
            simpa using hji
      have hrec := fold_insert_all cid ms (process_message cid st m) hchan2
        (fun m2 hm2 => hwf m2 (by simp [hm2])) hndtail hfreshtail
      refine ⟨?_, ?_, ?_⟩
      · rw [hrec.1, hmsg]
        simp only [List.length_append, List.length_cons, List.length_nil]
        omega
      · rw [hrec.2.1, hstep]
        dsimp only
        simp only [List.length_cons]
        omega
      · rw [hrec.2.2, hstep]

theorem fold_users_find (cid : Nat) :
    ∀ (ms : List RawMessage) (st : DB × Nat × Nat) (u : Nat),
      (∀ rec, (ms.filter (fun r => authorIdOf r == u)).getLast? = some rec →
        (ms.foldl (process_message cid) st).1.users.find? (fun t => t.user_id == u)
          = some (userRowOf rec)) ∧
      ((ms.filter (fun r => authorIdOf r == u)).getLast? = none →
        (ms.foldl (process_message cid) st).1.users.find? (fun t => t.user_id == u)
          = st.1.users.find? (fun t => t.user_id == u))
  | [], st, u => by
      constructor
      · intro rec h
        simp at h
      · intro _
        rfl
  | m :: ms, st, u => by
      have hstepusers := process_message_users cid st m
      by_cases hpm : (authorIdOf m == u) = true
      · have hu : u = authorIdOf m := by
          have h2 : authorIdOf m = u := by simpa using hpm
          omega
        have hself : (process_message cid st m).1.users.find? (fun t => t.user_id == u)
            = some (userRowOf m) := by
          rw [hstepusers, hu]
          exact authorUpsert_find_self st.1 m
        rw [List.foldl_cons]
        constructor
        · intro rec h
          rw [List.filter_cons, if_pos hpm] at h
          cases hfil : List.filter (fun r => authorIdOf r == u) ms with
          | nil =>
              rw [hfil] at h
              rw [List.getLast?_singleton] at h
              cases h
              exact (fold_users_find cid ms _ u).2 (by rw [hfil]; rfl) |>.trans hself
          | cons y ys =>
              rw [hfil, List.getLast?_cons_cons, ← hfil] at h
              exact (fold_users_find cid ms _ u).1 rec h
        · intro h
          rw [List.filter_cons, if_pos hpm] at h
          rw [List.getLast?_eq_none_iff] at h
          cases h
      · have hne : u ≠ authorIdOf m := by
          intro he
          exact hpm (by rw [he]; simp)
        have hpres : (process_message cid st m).1.users.find? (fun t => t.user_id == u)
            = st.1.users.find? (fun t => t.user_id == u) := by
          rw [hstepusers]
          exact authorUpsert_find_frame st.1 m u hne
        rw [List.foldl_cons]
        have hpm2 : (authorIdOf m == u) = false := by
          cases hb : (authorIdOf m == u) with
          | true => exact absurd hb hpm
          | false => rfl
        constructor
        · intro rec h
          rw [List.filter_cons, if_neg (by simp [hpm2])] at h
          exact (fold_users_find cid ms _ u).1 rec h
        · intro h
          rw [List.filter_cons, if_neg (by simp [hpm2])] at h
          exact ((fold_users_find cid ms _ u).2 h).trans hpres

/-! ## Lemmas about the per-file import -/

theorem chanIn_iff_find? (db : DB) (c : Nat) :
    chanIn db c = (db.channels.find? (fun t => t.channel_id == c)).isSome := by
  unfold chanIn
  exact any_eq_isSome_find? _ _

theorem fileUpsert_some_of_server (db : DB) (f : ExportFile) (sid : Nat)
    (hs : serverIn db sid = true) :
    ∃ c db1, fileUpsert db f sid = some (c, db1) := by
  have h := upsert_channel_isSome_of_server db (fileCid f) sid (fileChanName f)
    none (fileTopic f) none none hs rfl
  rcases Option.isSome_iff_exists.mp h with ⟨⟨c, db1⟩, hcd⟩
  exact ⟨c, db1, hcd⟩

theorem fileUpsert_chanIn (db : DB) (f : ExportFile) (sid : Nat) (c : ChannelRow)
    (db1 : DB) (h : fileUpsert db f sid = some (c, db1)) :
    chanIn db1 (fileCid f) = true := by
  rcases find?_upsert_channel_self db (fileCid f) sid (fileChanName f) none
    (fileTopic f) none none c db1 h with ⟨crow, hfind, _⟩
  rw [chanIn_iff_find?, hfind]
  rfl

theorem fileUpsert_frame (db : DB) (f : ExportFile) (sid : Nat) (c : ChannelRow)
    (db1 : DB) (h : fileUpsert db f sid = some (c, db1)) :
    db1.servers = db.servers ∧ db1.users = db.users ∧ db1.messages = db.messages :=
  upsert_channel_frame db (fileCid f) sid (fileChanName f) none (fileTopic f)
    none none c db1 h

theorem importOneFile_eq_fail (db : DB) (f : ExportFile) (sid : Nat)
    (h : fileUpsert db f sid = none) : importOneFile db f sid = (db, 0, 0) := by
  unfold importOneFile
  rw [h]

theorem importOneFile_eq_run (db : DB) (f : ExportFile) (sid : Nat)
    (c : ChannelRow) (db1 : DB) (h : fileUpsert db f sid = some (c, db1)) :
    importOneFile db f sid = f.messages.foldl (process_message (fileCid f)) (db1, 0, 0) := by
  unfold importOneFile
  rw [h]

/-! ## Concrete fixtures used by witnesses and counterexamples -/

/-- The empty store. -/
def dbEmpty : DB := ⟨[], [], [], [], []⟩

/-- A message row with the given identifier, channel, user and timestamp. -/
def mkRow (i c u ts : Nat) : MessageRow :=
  ⟨i, c, u, "m", ts, none, false, none, "Default", [], [], [], [], none⟩

/-- A store holding server 7, channel 1 (of server 7) and user 1, and no
subnet rows. -/
def dbW : DB :=
  ⟨[⟨7, "s", none⟩], [], [⟨1, 7, none, "general", none, none, none⟩],
   [⟨1, "u", none, none, none, false⟩], []⟩

/-- A store holding only a message row with identifier 7. -/
def db9 : DB := ⟨[], [], [], [], [mkRow 7 1 1 0]⟩

/-! ## Claim C1 -/

/-- C1, amended: `insert_message` returns `None` exactly when the attempted
INSERT violates an integrity constraint — a duplicate message identifier,
or a missing referenced channel or user row; in the `None` case the store
is left unchanged (no exception escapes), and when no constraint is
violated the record is committed as a new row and returned.  In
particular, when the record's channel and user rows exist, `None` is
returned only for the duplicate-identifier case, as the claim states. -/
theorem C1_insert_message_contract (db : DB) (m : MessageRow) :
    ((insert_message db m).1 = none ↔
      (msgIdIn db m.message_id = true ∨ chanIn db m.channel_id = false ∨
        userIn db m.user_id = false)) ∧
    ((insert_message db m).1 = none → (insert_message db m).2 = db) ∧
    (msgIdIn db m.message_id = false → chanIn db m.channel_id = true →
      userIn db m.user_id = true →
      insert_message db m = (some m, ⟨db.servers, db.subnets, db.channels, db.users, db.messages ++ [m]⟩)) :=
  ⟨insert_message_none_iff db m, insert_message_none_state db m,
    fun h1 h2 h3 => insert_message_ok db m h1 h2 h3⟩

/-- C1 counterexample: on an empty store no message carries identifier 5,
yet `insert_message` returns `None` (the row's channel and user foreign
keys are violated), contradicting both "a new row ... is committed and
returned" and "None is returned only ... the uniqueness constraint". -/
theorem C1_counterexample :
    msgIdIn dbEmpty 5 = false ∧
    insert_message dbEmpty (mkRow 5 1 1 0) = (none, dbEmpty) := by decide

/-- Witness for C1: with channel 1 and user 1 present and identifier 5
fresh, the insert commits and returns the row. -/
theorem C1_witness :
    msgIdIn dbW 5 = false ∧ chanIn dbW 1 = true ∧ userIn dbW 1 = true ∧
    insert_message dbW (mkRow 5 1 1 0)
      = (some (mkRow 5 1 1 0),
         ⟨dbW.servers, dbW.subnets, dbW.channels, dbW.users, dbW.messages ++ [mkRow 5 1 1 0]⟩) :=
  ⟨by decide, by decide, by decide,
   (C1_insert_message_contract dbW (mkRow 5 1 1 0)).2.2 (by decide) (by decide) (by decide)⟩

/-! ## Claim C9 -/

/-- C9: for a message identifier unknown to the store, `update_message`
returns `None` and `mark_message_deleted` returns `False`; neither raises
and both leave the stored state unchanged. -/
theorem C9_unknown_id_noop (db : DB) (X : Nat) (u : MsgUpdate) (now : Nat)
    (h : ∀ m ∈ db.messages, m.message_id ≠ X) :
    update_message db X u = (none, db) ∧
    mark_message_deleted db X now = (false, db) := by
  have hf : db.messages.find? (fun m => m.message_id == X) = none := by
    rw [List.find?_eq_none]
    intro x hx
    simpa using h x hx
  constructor
  · unfold update_message
    rw [hf]
  · unfold mark_message_deleted
    rw [hf]

/-- Witness for C9: identifier 5 is unknown to a store holding only
message 7; both operations report not-found and change nothing. -/
theorem C9_witness :
    (∀ m ∈ db9.messages, m.message_id ≠ 5) ∧
    update_message db9 5 ⟨some "x", none⟩ = (none, db9) ∧
    mark_message_deleted db9 5 99 = (false, db9) :=
  ⟨by decide,
   (C9_unknown_id_noop db9 5 ⟨some "x", none⟩ 99 (by decide)).1,
   (C9_unknown_id_noop db9 5 ⟨some "x", none⟩ 99 (by decide)).2⟩

/-! ## Claim C8 -/

theorem mem_get_messages_of_limit (db : DB) (cid limit : Nat) (x : MessageRow)
    (flag : Bool) (hx : x ∈ db.messages) (hch : (x.channel_id == cid) = true)
    (hok : (flag || !x.deleted) = true) (hlim : db.messages.length ≤ limit) :
    x ∈ get_messages_by_channel db cid limit 0 flag := by
  unfold get_messages_by_channel
  dsimp only
  have hq : x ∈ db.messages.filter
      (fun m => m.channel_id == cid && (flag || !m.deleted)) :=
    List.mem_filter.mpr ⟨hx, by rw [Bool.and_eq_true]; exact ⟨hch, hok⟩⟩
  have hsort : x ∈ List.insertionSort tsGe
      (db.messages.filter (fun m => m.channel_id == cid && (flag || !m.deleted))) :=
    (List.perm_insertionSort tsGe _).mem_iff.mpr hq
  have hlen : (List.insertionSort tsGe
      (db.messages.filter (fun m => m.channel_id == cid && (flag || !m.deleted)))).length ≤ limit := by
    rw [(List.perm_insertionSort tsGe _).length_eq]
    exact le_trans (List.length_filter_le _ _) hlim
  rw [List.drop_zero, List.take_of_length_le hlen]
  exact hsort

theorem deleted_not_mem_get_messages (db : DB) (cid limit offset : Nat)
    (x : MessageRow) (hd : x.deleted = true) :
    x ∉ get_messages_by_channel db cid limit offset false := by
  unfold get_messages_by_channel
  dsimp only
  intro hmem
  have h1 := List.mem_of_mem_take hmem
  have h2 := List.mem_of_mem_drop h1
  have h3 := (List.perm_insertionSort tsGe _).mem_iff.mp h2
  have h4 := (List.mem_filter.mp h3).2
  rw [hd] at h4
  simp at h4

theorem mark_message_deleted_eq_found (db : DB) (X now : Nat) (mrow : MessageRow)
    (h : db.messages.find? (fun t => t.message_id == X) = some mrow) :
    mark_message_deleted db X now
      = (true, { db with messages := updateFirst (fun t => t.message_id == X) (setDeleted now) db.messages }) := by
  unfold mark_message_deleted
  rw [h]

/-- C8: deleting a stored message with identifier X flags the first
matching row as deleted with the deletion instant, keeps the row count and
every other field and row unchanged (the row is never removed), leaves the
row retrievable by the channel query with the include-deleted flag set and
excluded whenever the flag is unset, and a second delete on the same
identifier succeeds and idempotently re-applies the flag. -/
theorem C8_soft_delete (db : DB) (X now : Nat) (mrow : MessageRow)
    (h : db.messages.find? (fun t => t.message_id == X) = some mrow) :
    (mark_message_deleted db X now).1 = true ∧
    (mark_message_deleted db X now).2.messages.length = db.messages.length ∧
    (mark_message_deleted db X now).2.messages.find? (fun t => t.message_id == X)
      = some (setDeleted now mrow) ∧
    (∀ Y, Y ≠ X →
      (mark_message_deleted db X now).2.messages.find? (fun t => t.message_id == Y)
        = db.messages.find? (fun t => t.message_id == Y)) ∧
    (mark_message_deleted db X now).2.channels = db.channels ∧
    (mark_message_deleted db X now).2.users = db.users ∧
    (mark_message_deleted db X now).2.servers = db.servers ∧
    setDeleted now mrow ∈ get_messages_by_channel (mark_message_deleted db X now).2
      mrow.channel_id ((mark_message_deleted db X now).2.messages.length) 0 true ∧
    (∀ cid limit offset, setDeleted now mrow ∉
      get_messages_by_channel (mark_message_deleted db X now).2 cid limit offset false) ∧
    mark_message_deleted (mark_message_deleted db X now).2 X now
      = (true, (mark_message_deleted db X now).2) := by
  have hmk := mark_message_deleted_eq_found db X now mrow h
  have hself : (mark_message_deleted db X now).2.messages.find? (fun t => t.message_id == X)
      = some (setDeleted now mrow) := by
    rw [hmk]
    exact find?_updateFirst_self (fun a ha => ha) h
  have hidem : updateFirst (fun t : MessageRow => t.message_id == X) (setDeleted now)
      (updateFirst (fun t => t.message_id == X) (setDeleted now) db.messages)
      = updateFirst (fun t => t.message_id == X) (setDeleted now) db.messages :=
    updateFirst_idem db.messages (fun a => rfl) (fun a => rfl)
  refine ⟨by rw [hmk], by rw [hmk]; exact updateFirst_length _ _ _, hself, ?_, by rw [hmk],
    by rw [hmk], by rw [hmk], ?_, ?_, ?_⟩
  · intro Y hY
    rw [hmk]
    refine find?_updateFirst_frame (fun a ha => ?_)
    have hidX : a.message_id = X := by simpa using ha
    constructor
    · simp [hidX]
      omega
    · show ((setDeleted now a).message_id == Y) = false
      simp [setDeleted, hidX]
      omega
  · refine mem_get_messages_of_limit _ _ _ _ _
      (List.mem_of_find?_eq_some hself) ?_ rfl (le_refl _)
    show ((setDeleted now mrow).channel_id == mrow.channel_id) = true
    simp [setDeleted]
  · intro cid limit offset
    exact deleted_not_mem_get_messages _ cid limit offset _ rfl
  · rw [mark_message_deleted_eq_found _ X now _ hself]
    rw [hmk]
    dsimp only
    rw [hidem]

/-- A store with channel 1, user 1 and two stored messages 5 and 6. -/
def db8 : DB :=
  ⟨[⟨7, "s", none⟩], [], [⟨1, 7, none, "g", none, none, none⟩],
   [⟨1, "u", none, none, none, false⟩], [mkRow 5 1 1 10, mkRow 6 1 1 20]⟩

/-- Witness for C8 at message 5 of `db8`. -/
theorem C8_witness :
    db8.messages.find? (fun t => t.message_id == 5) = some (mkRow 5 1 1 10) ∧
    (mark_message_deleted db8 5 99).1 = true ∧
    (mark_message_deleted db8 5 99).2.messages.find? (fun t => t.message_id == 5)
      = some (setDeleted 99 (mkRow 5 1 1 10)) ∧
    setDeleted 99 (mkRow 5 1 1 10) ∈ get_messages_by_channel
      (mark_message_deleted db8 5 99).2 1 ((mark_message_deleted db8 5 99).2.messages.length) 0 true ∧
    (setDeleted 99 (mkRow 5 1 1 10) ∉ get_messages_by_channel
      (mark_message_deleted db8 5 99).2 1 100 0 false) ∧
    mark_message_deleted (mark_message_deleted db8 5 99).2 5 99
      = (true, (mark_message_deleted db8 5 99).2) :=
  ⟨by decide,
   (C8_soft_delete db8 5 99 (mkRow 5 1 1 10) (by decide)).1,
   (C8_soft_delete db8 5 99 (mkRow 5 1 1 10) (by decide)).2.2.1,
   (C8_soft_delete db8 5 99 (mkRow 5 1 1 10) (by decide)).2.2.2.2.2.2.2.1,
   (C8_soft_delete db8 5 99 (mkRow 5 1 1 10) (by decide)).2.2.2.2.2.2.2.2.1 1 100 0,
   (C8_soft_delete db8 5 99 (mkRow 5 1 1 10) (by decide)).2.2.2.2.2.2.2.2.2⟩

/-! ## Claim C4 -/

/-- C4, amended: each identity upsert overwrites all provided mutable
fields when the primary identifier is already stored, inserts a new row
built from the supplied arguments when it is absent, and repeating any
upsert with identical input leaves the stored state exactly as after the
first call — except that `upsert_channel` raises in either case whenever a
non-null `subnet_id` references no stored subnet row (the
`channels.subnet_id -> subnets.id` foreign key of models.py line 56), and
in the absent case also whenever the referenced server row is missing; in
each such case the integrity error propagates and nothing is stored. -/
theorem C4_identity_upserts (db : DB) :
    (∀ sid nm icon s, db.servers.find? (fun t => t.server_id == sid) = some s →
      (upsert_server db sid nm icon).2.servers.find? (fun t => t.server_id == sid)
        = some (serverUpd nm icon s) ∧
      (upsert_server db sid nm icon).2.channels = db.channels ∧
      (upsert_server db sid nm icon).2.users = db.users ∧
      (upsert_server db sid nm icon).2.messages = db.messages) ∧
    (∀ sid nm icon, db.servers.find? (fun t => t.server_id == sid) = none →
      (upsert_server db sid nm icon).2.servers = db.servers ++ [⟨sid, nm, icon⟩]) ∧
    (∀ sid nm icon,
      (upsert_server (upsert_server db sid nm icon).2 sid nm icon).2
        = (upsert_server db sid nm icon).2) ∧
    (∀ uid un disc dn av bot u, db.users.find? (fun t => t.user_id == uid) = some u →
      (upsert_user db uid un disc dn av bot).2.users.find? (fun t => t.user_id == uid)
        = some (userUpd un disc dn av bot u) ∧
      (upsert_user db uid un disc dn av bot).2.channels = db.channels ∧
      (upsert_user db uid un disc dn av bot).2.messages = db.messages) ∧
    (∀ uid un disc dn av bot, db.users.find? (fun t => t.user_id == uid) = none →
      (upsert_user db uid un disc dn av bot).2.users = db.users ++ [⟨uid, un, disc, dn, av, bot⟩]) ∧
    (∀ uid un disc dn av bot,
      (upsert_user (upsert_user db uid un disc dn av bot).2 uid un disc dn av bot).2
        = (upsert_user db uid un disc dn av bot).2) ∧
    (∀ cid sid nm subnet topic category position c,
      db.channels.find? (fun t => t.channel_id == cid) = some c →
      subnetOk db subnet = true →
      ∃ db1, upsert_channel db cid sid nm subnet topic category position
          = some (chanUpd nm subnet topic category position c, db1) ∧
        db1.channels.find? (fun t => t.channel_id == cid)
          = some (chanUpd nm subnet topic category position c) ∧
        db1.servers = db.servers ∧ db1.users = db.users ∧ db1.messages = db.messages) ∧
    (∀ cid sid nm subnet topic category position,
      db.channels.find? (fun t => t.channel_id == cid) = none →
      subnetOk db subnet = true → serverIn db sid = true →
      ∃ db1, upsert_channel db cid sid nm subnet topic category position
          = some (⟨cid, sid, subnet, nm, topic, category, position⟩, db1) ∧
        db1.channels = db.channels ++ [⟨cid, sid, subnet, nm, topic, category, position⟩]) ∧
    (∀ cid sid nm subnet topic category position,
      subnetOk db subnet = false →
      upsert_channel db cid sid nm subnet topic category position = none) ∧
    (∀ cid sid nm subnet topic category position c db1,
      upsert_channel db cid sid nm subnet topic category position = some (c, db1) →
      ∃ c2, upsert_channel db1 cid sid nm subnet topic category position
        = some (c2, db1)) := by
  refine ⟨?_, ?_, ?_, ?_, ?_, ?_, ?_, ?_, ?_, ?_⟩
  · intro sid nm icon s h
    unfold upsert_server
    rw [h]
    exact ⟨find?_updateFirst_self (fun a ha => ha) h, rfl, rfl, rfl⟩
  · intro sid nm icon h
    unfold upsert_server
    rw [h]
  · intro sid nm icon
    unfold upsert_server
    cases h : db.servers.find? (fun t => t.server_id == sid) with
    | some s =>
        have h2 := find?_updateFirst_self (p := fun t : ServerRow => t.server_id == sid)
          (f := serverUpd nm icon) (fun a ha => ha) h
        dsimp only
        rw [h2]
        dsimp only
        rw [updateFirst_idem (p := fun t : ServerRow => t.server_id == sid)
          (f := serverUpd nm icon) db.servers (fun a => rfl) (fun a => rfl)]
    | none =>
        have hall : ∀ a ∈ db.servers, (fun t : ServerRow => t.server_id == sid) a = false := by
          intro a ha
          have h5 := List.find?_eq_none.mp h a ha
          simpa using h5
        have h2 : (db.servers ++ [(⟨sid, nm, icon⟩ : ServerRow)]).find?
            (fun t => t.server_id == sid) = some ⟨sid, nm, icon⟩ := by
          rw [List.find?_append, h]
          simp
        dsimp only
        rw [h2]
        dsimp only
        rw [updateFirst_append_singleton hall _ (by simp)]
  · intro uid un disc dn av bot u h
    unfold upsert_user
    rw [h]
    exact ⟨find?_updateFirst_self (fun a ha => ha) h, rfl, rfl⟩
  · intro uid un disc dn av bot h
    unfold upsert_user
    rw [h]
  · intro uid un disc dn av bot
    unfold upsert_user
    cases h : db.users.find? (fun t => t.user_id == uid) with
    | some u =>
        have h2 := find?_updateFirst_self (p := fun t : UserRow => t.user_id == uid)
          (f := userUpd un disc dn av bot) (fun a ha => ha) h
        dsimp only
        rw [h2]
        dsimp only
        rw [updateFirst_idem (p := fun t : UserRow => t.user_id == uid)
          (f := userUpd un disc dn av bot) db.users (fun a => rfl) (fun a => rfl)]
    | none =>
        have hall : ∀ a ∈ db.users, (fun t : UserRow => t.user_id == uid) a = false := by
          intro a ha
          have h5 := List.find?_eq_none.mp h a ha
          simpa using h5
        have h2 : (db.users ++ [(⟨uid, un, disc, dn, av, bot⟩ : UserRow)]).find?
            (fun t => t.user_id == uid) = some ⟨uid, un, disc, dn, av, bot⟩ := by
          rw [List.find?_append, h]
          simp
        dsimp only
        rw [h2]
        dsimp only
        rw [updateFirst_append_singleton hall _ (by simp)]
  · intro cid sid nm subnet topic category position c h hsub
    have heq : upsert_channel db cid sid nm subnet topic category position
        = some (chanUpd nm subnet topic category position c,
            { db with channels := updateFirst (fun t => t.channel_id == cid) (chanUpd nm subnet topic category position) db.channels }) := by
      unfold upsert_channel
      rw [h, hsub]
      exact rfl
    refine ⟨_, heq, ?_, rfl, rfl, rfl⟩
    exact find?_updateFirst_self (p := fun t : ChannelRow => t.channel_id == cid)
      (f := chanUpd nm subnet topic category position) (fun a ha => ha) h
  · intro cid sid nm subnet topic category position h hsub hs
    have heq : upsert_channel db cid sid nm subnet topic category position
        = some (⟨cid, sid, subnet, nm, topic, category, position⟩,
            { db with channels := db.channels ++ [⟨cid, sid, subnet, nm, topic, category, position⟩] }) := by
      unfold upsert_channel
      rw [h]
      simp [hs, hsub]
    exact ⟨_, heq, rfl⟩
  · intro cid sid nm subnet topic category position hsub
    unfold upsert_channel
    cases hf : db.channels.find? (fun t => t.channel_id == cid) with
    | some x =>
        rw [hsub]
        exact rfl
    | none =>
        rw [hsub]
        exact rfl
  · intro cid sid nm subnet topic category position c db1 h
    unfold upsert_channel at h
    cases hf : db.channels.find? (fun t => t.channel_id == cid) with
    | some x =>
        rw [hf] at h
        by_cases hsn : subnetOk db subnet
        · simp only [hsn, if_true, Option.some.injEq, Prod.mk.injEq] at h
          rcases h with ⟨hcrow, hdb⟩
          subst hdb
          have h2 := find?_updateFirst_self (p := fun t : ChannelRow => t.channel_id == cid)
            (f := chanUpd nm subnet topic category position) (fun a ha => ha) hf
          refine ⟨chanUpd nm subnet topic category position (chanUpd nm subnet topic category position x), ?_⟩
          unfold upsert_channel
          dsimp only
          rw [h2]
          dsimp only
          have hsn2 : subnetOk { db with channels := updateFirst (fun t => t.channel_id == cid) (chanUpd nm subnet topic category position) db.channels } subnet = true := hsn
          simp only [hsn2, if_true]
          rw [updateFirst_idem (p := fun t : ChannelRow => t.channel_id == cid)
            (f := chanUpd nm subnet topic category position) db.channels (fun a => rfl) (fun a => rfl)]
        · simp [hsn] at h
    | none =>
        rw [hf] at h
        by_cases hcnd : (subnetOk db subnet && serverIn db sid)
        · simp only [hcnd, if_true, Option.some.injEq, Prod.mk.injEq] at h
          rcases h with ⟨hcrow, hdb⟩
          subst hdb
          have hall : ∀ a ∈ db.channels, (fun t : ChannelRow => t.channel_id == cid) a = false := by
            intro a ha
            have h5 := List.find?_eq_none.mp hf a ha
            simpa using h5
          have h2 : (db.channels ++ [(⟨cid, sid, subnet, nm, topic, category, position⟩ : ChannelRow)]).find?
              (fun t => t.channel_id == cid) = some ⟨cid, sid, subnet, nm, topic, category, position⟩ := by
            rw [List.find?_append, hf]
            simp
          refine ⟨chanUpd nm subnet topic category position ⟨cid, sid, subnet, nm, topic, category, position⟩, ?_⟩
          unfold upsert_channel
          dsimp only
          rw [h2]
          dsimp only
          have hsn2 : subnetOk { db with channels := db.channels ++ [⟨cid, sid, subnet, nm, topic, category, position⟩] } subnet = true :=
            ((Bool.and_eq_true _ _).mp hcnd).1
          simp only [hsn2, if_true]
          rw [updateFirst_append_singleton hall _ (by simp)]
        · simp [hcnd] at h

/-- C4 counterexample: on an empty store channel 1 is absent, but
`upsert_channel` does not insert a row — the insert violates the
server foreign key and the error propagates (`none`), contradicting
"when absent, a new row is inserted ... no error is raised"; and on a
store where channel 1 exists but no subnet row 5 does, updating it with
`subnet_id = 5` violates the `channels.subnet_id -> subnets.id` foreign
key, so the error propagates (`none`) even in the already-exists case,
contradicting "its provided fields are overwritten ... no error is
raised". -/
theorem C4_counterexample :
    dbEmpty.channels.find? (fun t => t.channel_id == 1) = none ∧
    upsert_channel dbEmpty 1 7 "general" none none none none = none ∧
    (dbW.channels.find? (fun t => t.channel_id == 1)).isSome = true ∧
    subnetIn dbW 5 = false ∧
    upsert_channel dbW 1 7 "general" (some 5) none none none = none := by decide

/-- Witness for C4 on the concrete store `dbW`. -/
theorem C4_witness :
    (upsert_user dbW 1 "nu" none none none true).2.users.find? (fun t => t.user_id == 1)
      = some (userUpd "nu" none none none true ⟨1, "u", none, none, none, false⟩) ∧
    (upsert_server (upsert_server dbW 9 "s9" none).2 9 "s9" none).2
      = (upsert_server dbW 9 "s9" none).2 ∧
    (∃ db1, upsert_channel dbW 2 7 "new" none none none none
        = some (⟨2, 7, none, "new", none, none, none⟩, db1) ∧
      db1.channels = dbW.channels ++ [⟨2, 7, none, "new", none, none, none⟩]) :=
  ⟨((C4_identity_upserts dbW).2.2.2.1 1 "nu" none none none true
      ⟨1, "u", none, none, none, false⟩ (by decide)).1,
   (C4_identity_upserts dbW).2.2.1 9 "s9" none,
   (C4_identity_upserts dbW).2.2.2.2.2.2.2.1 2 7 "new" none none none none
      (by decide) (by decide) (by decide)⟩

/-! ## Claim C2 -/

/-- C2, amended: provided the export's parent server row exists in
storage, importing a well-formed file (every record carries an identifier,
author and timestamp) twice leaves the stored message-row count after the
second run equal to the count after the first (delta zero), and the second
run's imported count plus its skipped-duplicate count equals the number of
messages in the file. -/
theorem C2_idempotent_import (db : DB) (f : ExportFile) (sid : Nat)
    (hs : serverIn db sid = true)
    (hwf : ∀ m ∈ f.messages, m.id.isSome ∧ m.author.isSome ∧ m.timestamp.isSome) :
    (importOneFile (importOneFile db f sid).1 f sid).1.messages.length
      = (importOneFile db f sid).1.messages.length ∧
    (importOneFile (importOneFile db f sid).1 f sid).2.1
      + (importOneFile (importOneFile db f sid).1 f sid).2.2 = f.messages.length := by
  rcases fileUpsert_some_of_server db f sid hs with ⟨c, db1, h1⟩
  have hrun1 := importOneFile_eq_run db f sid c db1 h1
  have hchan1 : chanIn db1 (fileCid f) = true := fileUpsert_chanIn db f sid c db1 h1
  have hsv : (importOneFile db f sid).1.servers = db.servers := by
    rw [hrun1, (fold_frame (fileCid f) f.messages (db1, 0, 0)).2]
    exact (fileUpsert_frame db f sid c db1 h1).1
  have hs2 : serverIn (importOneFile db f sid).1 sid = true := by
    unfold serverIn
    rw [hsv]
    exact hs
  rcases fileUpsert_some_of_server (importOneFile db f sid).1 f sid hs2 with ⟨c2, db2, h2⟩
  have hrun2 := importOneFile_eq_run (importOneFile db f sid).1 f sid c2 db2 h2
  have hm2 : db2.messages = (importOneFile db f sid).1.messages :=
    (fileUpsert_frame _ f sid c2 db2 h2).2.2
  have hpresent : ∀ m ∈ f.messages, ∃ i ts, m.id = some i ∧
      m.timestamp.or m.timestampEdited = some ts ∧ msgIdIn db2 i = true := by
    intro m hm
    rcases hwf m hm with ⟨hid, _, hts⟩
    rcases Option.isSome_iff_exists.mp hid with ⟨i, hi⟩
    rcases Option.isSome_iff_exists.mp hts with ⟨ts, hts2⟩
    have hor : m.timestamp.or m.timestampEdited = some ts := by
      rw [hts2]
      rfl
    refine ⟨i, ts, hi, hor, ?_⟩
    have hin1 : msgIdIn (importOneFile db f sid).1 i = true := by
      rw [hrun1]
      exact fold_wf_ids (fileCid f) f.messages (db1, 0, 0) hchan1 m hm i ts hi hor
    unfold msgIdIn at hin1 ⊢
    rw [hm2]
    exact hin1
  have hskip := fold_skip_all (fileCid f) f.messages (db2, 0, 0) (fun m hm => hpresent m hm)
  constructor
  · rw [hrun2, hskip.1, hm2]
  · rw [hrun2, hskip.2.1, hskip.2.2]
    simp

/-- A raw export record with identifier and timestamp `i`, content `c`,
and author 1. -/
def recW (i : Nat) (c : String) : RawMessage :=
  ⟨some i, some i, none, some c,
   some ⟨some 1, some "u", none, none, none, some false⟩, none, [], [], [], [], none⟩

/-- A store holding only server 1. -/
def dbS : DB := ⟨[⟨1, "s", none⟩], [], [], [], []⟩

/-- A two-message export file for channel 9. -/
def fW : ExportFile := ⟨some ⟨some 9, some "chan", none⟩, [recW 1 "a", recW 2 "b"]⟩

/-- A one-message export file for channel 1. -/
def fOne : ExportFile := ⟨some ⟨some 1, some "c", none⟩, [recW 10 "x"]⟩

/-- C2 counterexample: with the parent server row absent, both runs fail
at the channel upsert and commit nothing, so run 2 reports
`imported + skipped_duplicate = 0` although the well-formed file holds one
message — the unqualified claim fails. -/
theorem C2_counterexample :
    (∀ m ∈ fOne.messages, m.id.isSome ∧ m.author.isSome ∧ m.timestamp.isSome) ∧
    fOne.messages.length = 1 ∧
    (importOneFile (importOneFile dbEmpty fOne 1).1 fOne 1).2.1
      + (importOneFile (importOneFile dbEmpty fOne 1).1 fOne 1).2.2 = 0 := by decide

/-- Witness for C2 on the two-message file `fW` over the store `dbS`. -/
theorem C2_witness :
    serverIn dbS 1 = true ∧
    (importOneFile (importOneFile dbS fW 1).1 fW 1).1.messages.length
      = (importOneFile dbS fW 1).1.messages.length ∧
    (importOneFile (importOneFile dbS fW 1).1 fW 1).2.1
      + (importOneFile (importOneFile dbS fW 1).1 fW 1).2.2 = fW.messages.length :=
  ⟨by decide,
   (C2_idempotent_import dbS fW 1 (by decide) (by decide)).1,
   (C2_idempotent_import dbS fW 1 (by decide) (by decide)).2⟩

/-! ## Claim C6 -/

/-- C6, amended: in a file whose records are well-formed with fresh,
pairwise-distinct identifiers except for exactly one record lacking both
timestamp fields (and with the parent server row present), the import
stores every other record and skips only the bad one; the skipped record
is noted in a log warning but is reflected in neither reported counter:
the run reports `imported = n - 1` and `skipped_duplicate = 0`.  The file
and the batch are not aborted — the import returns normally. -/
theorem C6_malformed_record (db : DB) (f : ExportFile) (sid : Nat)
    (pre post : List RawMessage) (bad : RawMessage)
    (hs : serverIn db sid = true)
    (hsplit : f.messages = pre ++ bad :: post)
    (hbad : bad.timestamp = none ∧ bad.timestampEdited = none)
    (hwf : ∀ m ∈ pre ++ post, m.id.isSome ∧ m.timestamp.isSome)
    (hnd : ((pre ++ post).filterMap (fun m => m.id)).Nodup)
    (hfresh : ∀ j ∈ (pre ++ post).filterMap (fun m => m.id), msgIdIn db j = false) :
    (importOneFile db f sid).2.1 = pre.length + post.length ∧
    (importOneFile db f sid).2.2 = 0 ∧
    (importOneFile db f sid).1.messages.length
      = db.messages.length + (pre.length + post.length) := by
  rcases fileUpsert_some_of_server db f sid hs with ⟨c, db1, h1⟩
  have hrun := importOneFile_eq_run db f sid c db1 h1
  have hchan1 : chanIn db1 (fileCid f) = true := fileUpsert_chanIn db f sid c db1 h1
  have hm1 : db1.messages = db.messages := (fileUpsert_frame db f sid c db1 h1).2.2
  have hfm : ∀ j, msgIdIn db1 j = msgIdIn db j := by
    intro j
    unfold msgIdIn
    rw [hm1]
  rw [hrun, hsplit, List.foldl_append, List.foldl_cons]
  have hwfpre : ∀ m ∈ pre, ∃ i ts, m.id = some i ∧ m.timestamp.or m.timestampEdited = some ts := by
    intro m hm
    rcases hwf m (by simp [hm]) with ⟨hid, hts⟩
    rcases Option.isSome_iff_exists.mp hid with ⟨i, hi⟩
    rcases Option.isSome_iff_exists.mp hts with ⟨ts, hts2⟩
    exact ⟨i, ts, hi, by rw [hts2]; rfl⟩
  have hfmap : (pre ++ post).filterMap (fun m => m.id)
      = pre.filterMap (fun m => m.id) ++ post.filterMap (fun m => m.id) :=
    List.filterMap_append _ _ _
  have hndpre : (pre.filterMap (fun m => m.id)).Nodup := by
    rw [hfmap] at hnd
    exact (List.nodup_append.mp hnd).1
  have hndpost : (post.filterMap (fun m => m.id)).Nodup := by
    rw [hfmap] at hnd
    exact (List.nodup_append.mp hnd).2.1
  have hdisj : (pre.filterMap (fun m => m.id)).Disjoint (post.filterMap (fun m => m.id)) := by
    rw [hfmap] at hnd
    exact (List.nodup_append.mp hnd).2.2
  have hfreshpre : ∀ j ∈ pre.filterMap (fun m => m.id), msgIdIn db1 j = false := by
    intro j hj
    rw [hfm]
    exact hfresh j (by rw [hfmap]; exact List.mem_append.mpr (Or.inl hj))
  have hpre := fold_insert_all (fileCid f) pre (db1, 0, 0) hchan1 hwfpre hndpre hfreshpre
  have hbadstep : process_message (fileCid f) (pre.foldl (process_message (fileCid f)) (db1, 0, 0)) bad
      = (authorUpsert (pre.foldl (process_message (fileCid f)) (db1, 0, 0)).1 bad,
         (pre.foldl (process_message (fileCid f)) (db1, 0, 0)).2.1,
         (pre.foldl (process_message (fileCid f)) (db1, 0, 0)).2.2) :=
    process_message_eq_skip _ _ _ (by rw [hbad.1, hbad.2]; rfl)
  have hchan2 : chanIn (process_message (fileCid f) (pre.foldl (process_message (fileCid f)) (db1, 0, 0)) bad).1 (fileCid f) = true := by
    unfold chanIn
    rw [(process_message_frame _ _ _).1, (fold_frame (fileCid f) pre (db1, 0, 0)).1]
    exact hchan1
  have hmsgs2 : (process_message (fileCid f) (pre.foldl (process_message (fileCid f)) (db1, 0, 0)) bad).1.messages
      = (pre.foldl (process_message (fileCid f)) (db1, 0, 0)).1.messages := by
    rw [hbadstep]
    exact (authorUpsert_frame _ _).2.2
  have hwfpost : ∀ m ∈ post, ∃ i ts, m.id = some i ∧ m.timestamp.or m.timestampEdited = some ts := by
    intro m hm
    rcases hwf m (by simp [hm]) with ⟨hid, hts⟩
    rcases Option.isSome_iff_exists.mp hid with ⟨i, hi⟩
    rcases Option.isSome_iff_exists.mp hts with ⟨ts, hts2⟩
    exact ⟨i, ts, hi, by rw [hts2]; rfl⟩
  have hfreshpost : ∀ j ∈ post.filterMap (fun m => m.id),
      msgIdIn (process_message (fileCid f) (pre.foldl (process_message (fileCid f)) (db1, 0, 0)) bad).1 j = false := by
    intro j hj
    have hjn : msgIdIn (pre.foldl (process_message (fileCid f)) (db1, 0, 0)).1 j = false := by
      cases hb : msgIdIn (pre.foldl (process_message (fileCid f)) (db1, 0, 0)).1 j with
      | false => rfl
      | true =>
          rcases fold_ids_sub (fileCid f) pre (db1, 0, 0) j hb with hin | ⟨m, hm, hid⟩
          · have h6 := hfresh j (by rw [hfmap]; exact List.mem_append.mpr (Or.inr hj))
            rw [hfm] at hin
            rw [h6] at hin
            exact hin.symm
          · have hjpre : j ∈ pre.filterMap (fun m => m.id) :=
              List.mem_filterMap.mpr ⟨m, hm, hid⟩
            exact absurd hj (hdisj hjpre)
    unfold msgIdIn at hjn ⊢
    rw [hmsgs2]
    exact hjn
  have hpost := fold_insert_all (fileCid f) post _ hchan2 hwfpost hndpost hfreshpost
  have hctr : (process_message (fileCid f) (pre.foldl (process_message (fileCid f)) (db1, 0, 0)) bad).2.1
      = (pre.foldl (process_message (fileCid f)) (db1, 0, 0)).2.1 ∧
      (process_message (fileCid f) (pre.foldl (process_message (fileCid f)) (db1, 0, 0)) bad).2.2
      = (pre.foldl (process_message (fileCid f)) (db1, 0, 0)).2.2 := by
    rw [hbadstep]
    exact ⟨rfl, rfl⟩
  refine ⟨?_, ?_, ?_⟩
  · rw [hpost.2.1, hctr.1, hpre.2.1]
    dsimp only
    omega
  · rw [hpost.2.2, hctr.2, hpre.2.2]
  · rw [hpost.1]
    have hlen2 : (process_message (fileCid f) (pre.foldl (process_message (fileCid f)) (db1, 0, 0)) bad).1.messages.length
        = (pre.foldl (process_message (fileCid f)) (db1, 0, 0)).1.messages.length := by
      rw [hmsgs2]
    rw [hlen2, hpre.1]
    dsimp only
    rw [hm1]
    omega

/-- A record with identifier 2 but neither timestamp field. -/
def badRec : RawMessage :=
  ⟨some 2, none, none, some "x",
   some ⟨some 1, some "u", none, none, none, some false⟩, none, [], [], [], [], none⟩

/-- A three-record file whose middle record lacks its timestamp. -/
def f6 : ExportFile :=
  ⟨some ⟨some 9, some "chan", none⟩, [recW 1 "a", badRec, recW 3 "c"]⟩

/-- C6 counterexample: the bad record is skipped, but the run reports
`imported = 2` and `skipped_duplicate = 0` for the three-record file — no
reported counter reflects the skipped record, contradicting "that skipped
record is counted (reflected in a reported counter)". -/
theorem C6_counterexample :
    f6.messages.length = 3 ∧
    (importOneFile dbS f6 1).2.1 = 2 ∧
    (importOneFile dbS f6 1).2.2 = 0 ∧
    (importOneFile dbS f6 1).1.messages.length = 2 := by decide

/-- Witness for C6 on the file `f6` over the store `dbS`. -/
theorem C6_witness :
    serverIn dbS 1 = true ∧
    (importOneFile dbS f6 1).2.1 = 2 ∧
    (importOneFile dbS f6 1).2.2 = 0 ∧
    (importOneFile dbS f6 1).1.messages.length = dbS.messages.length + 2 :=
  ⟨by decide,
   (C6_malformed_record dbS f6 1 [recW 1 "a"] [recW 3 "c"] badRec (by decide) rfl
     (by decide) (by decide) (by decide) (by decide)).1,
   (C6_malformed_record dbS f6 1 [recW 1 "a"] [recW 3 "c"] badRec (by decide) rfl
     (by decide) (by decide) (by decide) (by decide)).2.1,
   (C6_malformed_record dbS f6 1 [recW 1 "a"] [recW 3 "c"] badRec (by decide) rfl
     (by decide) (by decide) (by decide) (by decide)).2.2⟩

/-! ## Claim C5 -/

/-- C5: every message row the file import adds references the file's
channel; after the import returns, that channel row exists with the
file's channel metadata (name, topic), and the message's user row exists
with field values equal to the last-seen author metadata in the file —
the parents having been upserted (and committed) before the message row
was written. -/
theorem C5_parent_before_child (db : DB) (f : ExportFile) (sid : Nat) :
    ∀ m ∈ (importOneFile db f sid).1.messages, m ∉ db.messages →
      m.channel_id = fileCid f ∧
      (∃ crow, (importOneFile db f sid).1.channels.find? (fun t => t.channel_id == fileCid f)
          = some crow ∧ crow.name = fileChanName f ∧ crow.topic = fileTopic f) ∧
      (∃ rec, (f.messages.filter (fun r => authorIdOf r == m.user_id)).getLast? = some rec ∧
        (importOneFile db f sid).1.users.find? (fun t => t.user_id == m.user_id)
          = some (userRowOf rec)) := by
  cases hup : fileUpsert db f sid with
  | none =>
      intro m hm hnm
      rw [importOneFile_eq_fail db f sid hup] at hm
      exact absurd hm hnm
  | some cdb =>
      rcases cdb with ⟨c, db1⟩
      have hrun := importOneFile_eq_run db f sid c db1 hup
      have hm1 : db1.messages = db.messages := (fileUpsert_frame db f sid c db1 hup).2.2
      intro m hm hnm
      rcases fold_extend (fileCid f) f.messages (db1, 0, 0) with ⟨new, hext, hprop⟩
      rw [hrun, hext] at hm
      dsimp only at hm
      rw [hm1] at hm
      rcases List.mem_append.mp hm with hm | hm
      · exact absurd hm hnm
      · rcases hprop m hm with ⟨hcid, rec, hrec, huid, _⟩
        refine ⟨hcid, ?_, ?_⟩
        · rcases find?_upsert_channel_self db (fileCid f) sid (fileChanName f) none
            (fileTopic f) none none c db1 hup with ⟨crow, hfind, _, hname, _, htopic, _, _⟩
          refine ⟨crow, ?_, hname, htopic⟩
          rw [hrun, (fold_frame (fileCid f) f.messages (db1, 0, 0)).1]
          exact hfind
        · have hpr : (fun r => authorIdOf r == m.user_id) rec = true := by
            simp [huid]
          have hne : f.messages.filter (fun r => authorIdOf r == m.user_id) ≠ [] :=
            List.ne_nil_of_mem (List.mem_filter.mpr ⟨hrec, hpr⟩)
          rcases Option.isSome_iff_exists.mp (List.getLast?_isSome.mpr hne)
            with ⟨last, hlast⟩
          refine ⟨last, hlast, ?_⟩
          rw [hrun]
          exact (fold_users_find (fileCid f) f.messages (db1, 0, 0) m.user_id).1 last hlast

/-- Witness for C5: the row imported for the first record of `fW`
references channel 9 and its parents as the amended statement describes. -/
theorem C5_witness :
    rowOfRecord 9 (recW 1 "a") 1 1 1 ∈ (importOneFile dbS fW 1).1.messages ∧
    rowOfRecord 9 (recW 1 "a") 1 1 1 ∉ dbS.messages ∧
    ((rowOfRecord 9 (recW 1 "a") 1 1 1).channel_id = fileCid fW ∧
      (∃ crow, (importOneFile dbS fW 1).1.channels.find? (fun t => t.channel_id == fileCid fW)
          = some crow ∧ crow.name = fileChanName fW ∧ crow.topic = fileTopic fW) ∧
      (∃ rec, (fW.messages.filter (fun r => authorIdOf r == (rowOfRecord 9 (recW 1 "a") 1 1 1).user_id)).getLast? = some rec ∧
        (importOneFile dbS fW 1).1.users.find? (fun t => t.user_id == (rowOfRecord 9 (recW 1 "a") 1 1 1).user_id)
          = some (userRowOf rec))) :=
  ⟨by decide, by decide,
   C5_parent_before_child dbS fW 1 (rowOfRecord 9 (recW 1 "a") 1 1 1) (by decide) (by decide)⟩

/-! ## Claim C3 -/

theorem importOneFile_servers (db : DB) (f : ExportFile) (sid : Nat) :
    (importOneFile db f sid).1.servers = db.servers := by
  cases hup : fileUpsert db f sid with
  | none => rw [importOneFile_eq_fail db f sid hup]
  | some cdb =>
      rcases cdb with ⟨c, db1⟩
      rw [importOneFile_eq_run db f sid c db1 hup,
        (fold_frame (fileCid f) f.messages (db1, 0, 0)).2]
      exact (fileUpsert_frame db f sid c db1 hup).1

theorem importOneFile_ids (db : DB) (f : ExportFile) (sid : Nat)
    (hs : serverIn db sid = true)
    (hwf : ∀ m ∈ f.messages, m.id.isSome ∧ m.author.isSome ∧ m.timestamp.isSome)
    (i : Nat) :
    msgIdIn (importOneFile db f sid).1 i = true ↔
      (msgIdIn db i = true ∨ i ∈ f.messages.filterMap (fun m => m.id)) := by
  rcases fileUpsert_some_of_server db f sid hs with ⟨c, db1, hup⟩
  have hrun := importOneFile_eq_run db f sid c db1 hup
  have hm1 : ∀ j, msgIdIn db1 j = msgIdIn db j := by
    intro j
    unfold msgIdIn
    rw [(fileUpsert_frame db f sid c db1 hup).2.2]
  have hchan1 : chanIn db1 (fileCid f) = true := fileUpsert_chanIn db f sid c db1 hup
  rw [hrun]
  constructor
  · intro h
    rcases fold_ids_sub (fileCid f) f.messages (db1, 0, 0) i h with h2 | ⟨m, hm, hid⟩
    · exact Or.inl (by rw [← hm1]; exact h2)
    · exact Or.inr (List.mem_filterMap.mpr ⟨m, hm, hid⟩)
  · intro h
    rcases h with h | h
    · exact fold_mono (fileCid f) f.messages (db1, 0, 0) i (by rw [hm1]; exact h)
    · rcases List.mem_filterMap.mp h with ⟨m, hm, hid⟩
      rcases Option.isSome_iff_exists.mp (hwf m hm).2.2 with ⟨ts, hts⟩
      have hor : m.timestamp.or m.timestampEdited = some ts := by
        rw [hts]
        rfl
      exact fold_wf_ids (fileCid f) f.messages (db1, 0, 0) hchan1 m hm i ts hid hor

theorem importOneFile_nodup (db : DB) (f : ExportFile) (sid : Nat)
    (hnd : (db.messages.map (fun t => t.message_id)).Nodup) :
    ((importOneFile db f sid).1.messages.map (fun t => t.message_id)).Nodup := by
  cases hup : fileUpsert db f sid with
  | none =>
      rw [importOneFile_eq_fail db f sid hup]
      exact hnd
  | some cdb =>
      rcases cdb with ⟨c, db1⟩
      rw [importOneFile_eq_run db f sid c db1 hup]
      refine fold_nodup (fileCid f) f.messages (db1, 0, 0) ?_
      rw [show (db1, (0 : Nat), (0 : Nat)).1.messages = db.messages
        from (fileUpsert_frame db f sid c db1 hup).2.2]
      exact hnd

theorem length_eq_of_nodup_iff (l r : List Nat) (hl : l.Nodup) (hr : r.Nodup)
    (h : ∀ i, i ∈ l ↔ i ∈ r) : l.length = r.length := by
  rw [← List.toFinset_card_of_nodup hl, ← List.toFinset_card_of_nodup hr]
  congr 1
  ext a
  simp only [List.mem_toFinset]
  exact h a

/-- C3, amended: starting from a store with no messages whose parent
server row exists, importing a well-formed file A with identifiers exactly
1..100 and a well-formed file B with identifiers exactly 50..150, in
either order, stores exactly 150 message rows, and the set of stored
message identifiers is exactly 1..150 in both orders.  (The row count and
identifier set are order-independent; the stored field values of the
overlapping identifiers 50..100 come from whichever file was processed
first, so the full stored state can differ between the two orders.) -/
theorem C3_overlapping_files (db : DB) (A B : ExportFile) (sid : Nat)
    (hs : serverIn db sid = true) (hempty : db.messages = [])
    (hwfA : ∀ m ∈ A.messages, m.id.isSome ∧ m.author.isSome ∧ m.timestamp.isSome)
    (hidsA : ∀ i, i ∈ A.messages.filterMap (fun m => m.id) ↔ i ∈ List.range' 1 100)
    (hwfB : ∀ m ∈ B.messages, m.id.isSome ∧ m.author.isSome ∧ m.timestamp.isSome)
    (hidsB : ∀ i, i ∈ B.messages.filterMap (fun m => m.id) ↔ i ∈ List.range' 50 101) :
    (importOneFile (importOneFile db A sid).1 B sid).1.messages.length = 150 ∧
    (importOneFile (importOneFile db B sid).1 A sid).1.messages.length = 150 ∧
    (∀ i, msgIdIn (importOneFile (importOneFile db A sid).1 B sid).1 i = true ↔
      i ∈ List.range' 1 150) ∧
    (∀ i, msgIdIn (importOneFile (importOneFile db B sid).1 A sid).1 i = true ↔
      i ∈ List.range' 1 150) := by
  have hnone : ∀ i, msgIdIn db i = false := by
    intro i
    unfold msgIdIn
    rw [hempty]
    rfl
  have key : ∀ (F G : ExportFile)
      (hwfF : ∀ m ∈ F.messages, m.id.isSome ∧ m.author.isSome ∧ m.timestamp.isSome)
      (hwfG : ∀ m ∈ G.messages, m.id.isSome ∧ m.author.isSome ∧ m.timestamp.isSome),
      (∀ i, msgIdIn (importOneFile (importOneFile db F sid).1 G sid).1 i = true ↔
        (i ∈ F.messages.filterMap (fun m => m.id) ∨ i ∈ G.messages.filterMap (fun m => m.id))) ∧
      ((importOneFile (importOneFile db F sid).1 G sid).1.messages.map (fun t => t.message_id)).Nodup := by
    intro F G hwfF hwfG
    have hs1 : serverIn (importOneFile db F sid).1 sid = true := by
      unfold serverIn
      rw [importOneFile_servers]
      exact hs
    constructor
    · intro i
      rw [importOneFile_ids _ G sid hs1 hwfG i,
        importOneFile_ids db F sid hs hwfF i]
      rw [hnone i]
      simp
    · refine importOneFile_nodup _ G sid (importOneFile_nodup db F sid ?_)
      rw [hempty]
      exact List.nodup_nil
  rcases key A B hwfA hwfB with ⟨hABids, hABnd⟩
  rcases key B A hwfB hwfA with ⟨hBAids, hBAnd⟩
  have hABset : ∀ i, msgIdIn (importOneFile (importOneFile db A sid).1 B sid).1 i = true ↔
      i ∈ List.range' 1 150 := by
    intro i
    rw [hABids i]
    rw [List.mem_range'_1]
    constructor
    · rintro (h | h)
      · have := (hidsA i).mp h
        rw [List.mem_range'_1] at this
        omega
      · have := (hidsB i).mp h
        rw [List.mem_range'_1] at this
        omega
    · intro h
      by_cases h2 : i < 101
      · exact Or.inl ((hidsA i).mpr (by rw [List.mem_range'_1]; omega))
      · exact Or.inr ((hidsB i).mpr (by rw [List.mem_range'_1]; omega))
  have hBAset : ∀ i, msgIdIn (importOneFile (importOneFile db B sid).1 A sid).1 i = true ↔
      i ∈ List.range' 1 150 := by
    intro i
    rw [hBAids i]
    rw [List.mem_range'_1]
    constructor
    · rintro (h | h)
      · have := (hidsB i).mp h
        rw [List.mem_range'_1] at this
        omega
      · have := (hidsA i).mp h
        rw [List.mem_range'_1] at this
        omega
    · intro h
      by_cases h2 : i < 101
      · exact Or.inr ((hidsA i).mpr (by rw [List.mem_range'_1]; omega))
      · exact Or.inl ((hidsB i).mpr (by rw [List.mem_range'_1]; omega))
  have hlenAB : (importOneFile (importOneFile db A sid).1 B sid).1.messages.length = 150 := by
    have h1 : ((importOneFile (importOneFile db A sid).1 B sid).1.messages.map
        (fun t => t.message_id)).length = (List.range' 1 150).length := by
      refine length_eq_of_nodup_iff _ _ hABnd (List.nodup_range' 1 150) ?_
      intro i
      rw [← msgIdIn_iff]
      exact hABset i
    rw [List.length_map] at h1
    rw [h1, List.length_range']
  have hlenBA : (importOneFile (importOneFile db B sid).1 A sid).1.messages.length = 150 := by
    have h1 : ((importOneFile (importOneFile db B sid).1 A sid).1.messages.map
        (fun t => t.message_id)).length = (List.range' 1 150).length := by
      refine length_eq_of_nodup_iff _ _ hBAnd (List.nodup_range' 1 150) ?_
      intro i
      rw [← msgIdIn_iff]
      exact hBAset i
    rw [List.length_map] at h1
    rw [h1, List.length_range']
  exact ⟨hlenAB, hlenBA, hABset, hBAset⟩

/-- File A of the claim: well-formed messages with identifiers exactly
1..100, all with content "a". -/
def fileA : ExportFile :=
  ⟨some ⟨some 9, some "chan", none⟩, (List.range 100).map (fun k => recW (k+1) "a")⟩

/-- File B of the claim: well-formed messages with identifiers exactly
50..150, all with content "b". -/
def fileB : ExportFile :=
  ⟨some ⟨some 9, some "chan", none⟩, (List.range 101).map (fun k => recW (k+50) "b")⟩

theorem fileA_ids : fileA.messages.filterMap (fun m => m.id) = List.range' 1 100 := by
  decide

theorem fileB_ids : fileB.messages.filterMap (fun m => m.id) = List.range' 50 101 := by
  decide

set_option maxRecDepth 10000 in
/-- C3 counterexample: for the well-formed files A (identifiers 1..100)
and B (identifiers 50..150) whose records disagree on the shared
identifiers, the stored row for identifier 50 carries file A's content
after importing A then B, and file B's content after importing B then A:
the cross-file processing order does affect the final stored state,
contradicting the claim.  (Both orders do store 150 rows.) -/
theorem C3_counterexample :
    (((importOneFile (importOneFile dbS fileA 1).1 fileB 1).1.messages.find?
        (fun t => t.message_id == 50)).map (fun t => t.content) = some "a") ∧
    (((importOneFile (importOneFile dbS fileB 1).1 fileA 1).1.messages.find?
        (fun t => t.message_id == 50)).map (fun t => t.content) = some "b") ∧
    (importOneFile (importOneFile dbS fileA 1).1 fileB 1).1
      ≠ (importOneFile (importOneFile dbS fileB 1).1 fileA 1).1 := by
  have h1 : (((importOneFile (importOneFile dbS fileA 1).1 fileB 1).1.messages.find?
      (fun t => t.message_id == 50)).map (fun t => t.content) = some "a") := by decide
  have h2 : (((importOneFile (importOneFile dbS fileB 1).1 fileA 1).1.messages.find?
      (fun t => t.message_id == 50)).map (fun t => t.content) = some "b") := by decide
  refine ⟨h1, h2, ?_⟩
  intro he
  rw [he] at h1
  rw [h1] at h2
  exact absurd h2 (by decide)

set_option maxRecDepth 10000 in
/-- Witness for C3: both orders of importing the concrete files A and B
yield exactly 150 stored message rows. -/
theorem C3_witness :
    serverIn dbS 1 = true ∧
    (importOneFile (importOneFile dbS fileA 1).1 fileB 1).1.messages.length = 150 ∧
    (importOneFile (importOneFile dbS fileB 1).1 fileA 1).1.messages.length = 150 :=
  ⟨by decide,
   (C3_overlapping_files dbS fileA fileB 1 (by decide) rfl (by decide)
     (fun i => by rw [fileA_ids]) (by decide) (fun i => by rw [fileB_ids])).1,
   (C3_overlapping_files dbS fileA fileB 1 (by decide) rfl (by decide)
     (fun i => by rw [fileA_ids]) (by decide) (fun i => by rw [fileB_ids])).2.1⟩

/-! ## Claim C7 -/

theorem charListLe_total : ∀ a b : List Char, charListLe a b = true ∨ charListLe b a = true
  | [], _ => Or.inl rfl
  | _ :: _, [] => Or.inr rfl
  | a :: as, b :: bs => by
      by_cases h1 : a < b
      · exact Or.inl (by simp [charListLe, h1])
      · by_cases h2 : b < a
        · exact Or.inr (by simp [charListLe, h2])
        · rcases charListLe_total as bs with h | h
          · exact Or.inl (by simp [charListLe, h1, h2, h])
          · exact Or.inr (by simp [charListLe, h1, h2, h])

theorem charListLe_trans : ∀ a b c : List Char,
    charListLe a b = true → charListLe b c = true → charListLe a c = true
  | [], _, _, _, _ => rfl
  | _ :: _, [], _, hab, _ => by simp [charListLe] at hab
  | _ :: _, _ :: _, [], _, hbc => by simp [charListLe] at hbc
  | x :: xs, y :: ys, z :: zs, hab, hbc => by
      simp only [charListLe] at hab hbc ⊢
      by_cases hxy : x < y
      · by_cases hyz : y < z
        · simp [lt_trans hxy hyz]
        · by_cases hzy : z < y
          · simp [hyz, hzy] at hbc
          · have hyzeq : y = z := le_antisymm (not_lt.mp hzy) (not_lt.mp hyz)
            subst hyzeq
            simp [hxy]
      · by_cases hyx : y < x
        · simp [hxy, hyx] at hab
        · have hxyeq : x = y := le_antisymm (not_lt.mp hyx) (not_lt.mp hxy)
          subst hxyeq
          simp only [hxy, if_neg, lt_irrefl, if_false] at hab
          by_cases hyz : x < z
          · simp [hyz]
          · by_cases hzy : z < x
            · simp [hyz, hzy] at hbc
            · simp only [hyz, hzy, if_false] at hbc ⊢
              exact charListLe_trans xs ys zs hab hbc

theorem charListLe_antisymm : ∀ a b : List Char,
    charListLe a b = true → charListLe b a = true → a = b
  | [], [], _, _ => rfl
  | [], _ :: _, _, hba => by simp [charListLe] at hba
  | _ :: _, [], hab, _ => by simp [charListLe] at hab
  | x :: xs, y :: ys, hab, hba => by
      simp only [charListLe] at hab hba
      by_cases h1 : x < y
      · have h2 : ¬y < x := lt_asymm h1
        simp [h1, h2] at hba
      · by_cases h2 : y < x
        · simp [h1, h2] at hab
        · have hxy : x = y := le_antisymm (not_lt.mp h2) (not_lt.mp h1)
          subst hxy
          simp only [lt_irrefl, if_false] at hab hba
          rw [charListLe_antisymm xs ys hab hba]

theorem strLe_antisymm (a b : String) (h1 : strLe a b = true) (h2 : strLe b a = true) :
    a = b := by
  cases a with
  | mk la =>
      cases b with
      | mk lb =>
          unfold strLe at h1 h2
          rw [charListLe_antisymm la lb h1 h2]

instance : IsTotal (String × Option ExportFile) fileLe :=
  ⟨fun a b => charListLe_total a.1.data b.1.data⟩

instance : IsTrans (String × Option ExportFile) fileLe :=
  ⟨fun a b c hab hbc => charListLe_trans a.1.data b.1.data c.1.data hab hbc⟩

theorem getLast?_mem {α : Type*} : ∀ (l : List α) (m : α), l.getLast? = some m → m ∈ l
  | [], m, h => by simp at h
  | [a], m, h => by
      rw [List.getLast?_singleton] at h
      cases h
      simp
  | a :: b :: t, m, h => by
      rw [List.getLast?_cons_cons] at h
      exact List.mem_cons.mpr (Or.inr (getLast?_mem (b :: t) m h))

theorem sorted_getLast_max {α : Type*} {r : α → α → Prop} :
    ∀ (l : List α) (m : α), List.Sorted r l → l.getLast? = some m →
      ∀ x ∈ l, r x m ∨ x = m
  | [], m, _, h, x, hx => by simp at h
  | [a], m, _, h, x, hx => by
      rw [List.getLast?_singleton] at h
      cases h
      rcases List.mem_singleton.mp hx with rfl
      exact Or.inr rfl
  | a :: b :: t, m, hs, h, x, hx => by
      rw [List.getLast?_cons_cons] at h
      rcases List.mem_cons.mp hx with rfl | hx2
      · have hmem : m ∈ b :: t := getLast?_mem _ m h
        exact Or.inl ((List.sorted_cons.mp hs).1 m hmem)
      · exact sorted_getLast_max (b :: t) m (List.sorted_cons.mp hs).2 h x hx2

/-- C7: the checkpoint tracker returns `None` for a channel without an
export folder and for a channel whose folder holds no JSON files; when
the folder's path-wise (lexically) last file parses and ends with a
message entry carrying identifier N, it returns N. -/
theorem C7_checkpoint (fs : ExportsFS) (ch : String) :
    (fs.dirs.find? (fun d => d.1 == sanitizeName ch) = none →
      get_last_message_id fs ch = none) ∧
    (∀ dname, fs.dirs.find? (fun d => d.1 == sanitizeName ch) = some (dname, []) →
      get_last_message_id fs ch = none) ∧
    (∀ dname files fname data mrec N,
      fs.dirs.find? (fun d => d.1 == sanitizeName ch) = some (dname, files) →
      (fname, some data) ∈ files →
      (∀ g ∈ files, strLe g.1 fname = true) →
      (files.map (fun g => g.1)).Nodup →
      data.messages.getLast? = some mrec →
      mrec.id = some N →
      get_last_message_id fs ch = some N) := by
  refine ⟨?_, ?_, ?_⟩
  · intro h
    unfold get_last_message_id
    rw [h]
  · intro dname h
    unfold get_last_message_id
    rw [h]
    rfl
  · intro dname files fname data mrec N hfind hmemf hlex hnd hmsgs hid
    unfold get_last_message_id
    rw [hfind]
    dsimp only
    have hperm := List.perm_insertionSort fileLe files
    have hne : List.insertionSort fileLe files ≠ [] := by
      intro h0
      have hlen := hperm.length_eq
      rw [h0] at hlen
      have := List.ne_nil_of_mem hmemf
      cases files with
      | nil => exact this rfl
      | cons a l => simp at hlen
    rcases Option.isSome_iff_exists.mp (List.getLast?_isSome.mpr hne) with ⟨last, hlast⟩
    have hsorted := List.sorted_insertionSort fileLe files
    have hmax := sorted_getLast_max _ last hsorted hlast
    have hfsmem : (fname, some data) ∈ List.insertionSort fileLe files :=
      hperm.mem_iff.mpr hmemf
    have hlastmem : last ∈ files := hperm.mem_iff.mp (getLast?_mem _ last hlast)
    have hlasteq : last = (fname, some data) := by
      rcases hmax (fname, some data) hfsmem with hr | heq
      · have h1 : strLe fname last.1 = true := hr
        have h2 : strLe last.1 fname = true := hlex last hlastmem
        have hnameeq : last.1 = fname := strLe_antisymm _ _ h2 h1
        exact List.inj_on_of_nodup_map hnd hlastmem hmemf hnameeq
      · exact heq.symm
    rw [hlast, hlasteq]
    dsimp only
    rw [hmsgs]
    exact hid

/-- A one-folder export tree for channel folder "chan" with two files;
"b.json" is the lexically last. -/
def fsW : ExportsFS :=
  ⟨[("chan", [("a.json", some fOne), ("b.json", some fW)])]⟩

/-- Witness for C7: the checkpoint of "chan" is the identifier 2 of the
final message of `fW`, the lexically last export file. -/
theorem C7_witness :
    fsW.dirs.find? (fun d => d.1 == sanitizeName "chan")
      = some ("chan", [("a.json", some fOne), ("b.json", some fW)]) ∧
    get_last_message_id fsW "chan" = some 2 :=
  ⟨by decide,
   (C7_checkpoint fsW "chan").2.2 "chan" [("a.json", some fOne), ("b.json", some fW)]
     "b.json" fW (recW 2 "b") 2 (by decide) (by decide) (by decide) (by decide)
     (by decide) (by decide)⟩

/-! ## Claim C10 -/

theorem leadMatch_iff : ∀ (n h : List Char), leadMatch n h = true ↔ ∃ rest, h = n ++ rest
  | [], h => by
      simp [leadMatch]
  | a :: as, [] => by
      simp [leadMatch]
  | a :: as, b :: bs => by
      rw [show leadMatch (a :: as) (b :: bs) = (a == b && leadMatch as bs) from rfl]
      rw [Bool.and_eq_true]
      constructor
      · rintro ⟨hab, hlm⟩
        rcases (leadMatch_iff as bs).mp hlm with ⟨rest, hrest⟩
        refine ⟨rest, ?_⟩
        rw [hrest, List.cons_append]
        have : a = b := eq_of_beq hab
        rw [this]
      · rintro ⟨rest, hrest⟩
        rw [List.cons_append] at hrest
        injection hrest with h1 h2
        constructor
        · rw [h1]
          simp
        · exact (leadMatch_iff as bs).mpr ⟨rest, h2⟩

theorem subAt_iff : ∀ (n h : List Char), subAt n h = true ↔ ∃ p q, h = p ++ n ++ q
  | n, [] => by
      cases n <;> simp [subAt]
  | n, b :: bs => by
      rw [show subAt n (b :: bs) = (leadMatch n (b :: bs) || subAt n bs) from rfl]
      rw [Bool.or_eq_true]
      constructor
      · rintro (h | h)
        · rcases (leadMatch_iff n (b :: bs)).mp h with ⟨rest, hrest⟩
          exact ⟨[], rest, by simpa using hrest⟩
        · rcases (subAt_iff n bs).mp h with ⟨p, q, hpq⟩
          exact ⟨b :: p, q, by rw [hpq]; simp⟩
      · rintro ⟨p, q, hpq⟩
        cases p with
        | nil =>
            refine Or.inl ((leadMatch_iff n (b :: bs)).mpr ⟨q, ?_⟩)
            simpa using hpq
        | cons c ps =>
            refine Or.inr ((subAt_iff n bs).mpr ⟨ps, q, ?_⟩)
            simp only [List.cons_append, List.cons.injEq] at hpq
            exact hpq.2

theorem classify_fold_nores (entries skip : List String) :
    ∀ (chs : List ChannelCfg) (acc : Classified),
      (chs.foldl (classifyStep entries skip false) acc).alreadyExported
        = acc.alreadyExported ++ (chs.filter (fun c => !skip.contains c.channel_id
            && check_already_exported entries c.name)).map (fun c => c.name) ∧
      (chs.foldl (classifyStep entries skip false) acc).toExport
        = acc.toExport ++ chs.filter (fun c => !skip.contains c.channel_id
            && !check_already_exported entries c.name)
  | [], acc => by simp
  | ch :: chs, acc => by
      rw [List.foldl_cons, List.filter_cons, List.filter_cons]
      rcases classify_fold_nores entries skip chs (classifyStep entries skip false acc ch)
        with ⟨h1, h2⟩
      by_cases hskip : skip.contains ch.channel_id = true
      · have hstep : classifyStep entries skip false acc ch
            = { acc with skippedForbidden := acc.skippedForbidden ++ [ch.name] } := by
          unfold classifyStep
          rw [hskip]
          exact rfl
        rw [hstep] at h1 h2
        constructor
        · rw [hstep, h1]
          have hn : ¬((!skip.contains ch.channel_id
              && check_already_exported entries ch.name) = true) := by
            rw [hskip]
            simp
          rw [if_neg hn]
        · rw [hstep, h2]
          have hn : ¬((!skip.contains ch.channel_id
              && !check_already_exported entries ch.name) = true) := by
            rw [hskip]
            simp
          rw [if_neg hn]
      · have hskip2 : skip.contains ch.channel_id = false := by
          cases hb : skip.contains ch.channel_id
          · rfl
          · exact absurd hb hskip
        cases hexp : check_already_exported entries ch.name with
        | true =>
            have hstep : classifyStep entries skip false acc ch
                = { acc with alreadyExported := acc.alreadyExported ++ [ch.name] } := by
              unfold classifyStep
              rw [hskip2, hexp]
              exact rfl
            rw [hstep] at h1 h2
            constructor
            · rw [hstep, h1]
              have hcond : (!skip.contains ch.channel_id && true) = true := by
                rw [hskip2]
                exact rfl
              rw [if_pos hcond, List.map_cons]
              dsimp only
              rw [List.append_assoc]
              rfl
            · rw [hstep, h2]
              have hn : ¬((!skip.contains ch.channel_id && !true) = true) := by
                simp
              rw [if_neg hn]
        | false =>
            have hstep : classifyStep entries skip false acc ch
                = { acc with toExport := acc.toExport ++ [ch] } := by
              unfold classifyStep
              rw [hskip2, hexp]
              exact rfl
            rw [hstep] at h1 h2
            constructor
            · rw [hstep, h1]
              have hn : ¬((!skip.contains ch.channel_id && false) = true) := by
                simp
              rw [if_neg hn]
            · rw [hstep, h2]
              have hcond : (!skip.contains ch.channel_id && !false) = true := by
                rw [hskip2]
                exact rfl
              rw [if_pos hcond]
              dsimp only
              rw [List.append_assoc]
              rfl

/-- C10: in normal (non-resume) mode the batch exporter classifies a
channel as already exported exactly when some entry of the exports
directory has the channel's name as a case-insensitive substring of the
entry's name; consequently a channel that was never exported but whose
name occurs inside another channel's export-folder name is put on the
already-exported list and left out of the export list. -/
theorem C10_substring_classification (entries skip : List String)
    (channels : List ChannelCfg) :
    (∀ n : String, check_already_exported entries n = true ↔
      ∃ e ∈ entries, ∃ p q, lowerChars e.data = p ++ lowerChars n.data ++ q) ∧
    ((classify_channels entries skip false channels).alreadyExported
      = (channels.filter (fun c => !skip.contains c.channel_id
          && check_already_exported entries c.name)).map (fun c => c.name)) ∧
    ((classify_channels entries skip false channels).toExport
      = channels.filter (fun c => !skip.contains c.channel_id
          && !check_already_exported entries c.name)) ∧
    (∀ c ∈ channels, skip.contains c.channel_id = false →
      (∃ e ∈ entries, ∃ p q, lowerChars e.data = p ++ lowerChars c.name.data ++ q) →
      c.name ∈ (classify_channels entries skip false channels).alreadyExported ∧
      c ∉ (classify_channels entries skip false channels).toExport) := by
  have hcheck : ∀ n : String, check_already_exported entries n = true ↔
      ∃ e ∈ entries, ∃ p q, lowerChars e.data = p ++ lowerChars n.data ++ q := by
    intro n
    unfold check_already_exported
    rw [List.any_eq_true]
    constructor
    · rintro ⟨e, he, hsub⟩
      exact ⟨e, he, (subAt_iff _ _).mp hsub⟩
    · rintro ⟨e, he, hpq⟩
      exact ⟨e, he, (subAt_iff _ _).mpr hpq⟩
  have hfold := classify_fold_nores entries skip channels ⟨[], [], [], []⟩
  have halready : (classify_channels entries skip false channels).alreadyExported
      = (channels.filter (fun c => !skip.contains c.channel_id
          && check_already_exported entries c.name)).map (fun c => c.name) := by
    unfold classify_channels
    rw [hfold.1]
    rfl
  have hto : (classify_channels entries skip false channels).toExport
      = channels.filter (fun c => !skip.contains c.channel_id
          && !check_already_exported entries c.name) := by
    unfold classify_channels
    rw [hfold.2]
    rfl
  refine ⟨hcheck, halready, hto, ?_⟩
  intro c hc hns hsub
  have hch : check_already_exported entries c.name = true := (hcheck c.name).mpr hsub
  constructor
  · rw [halready]
    refine List.mem_map.mpr ⟨c, ?_, rfl⟩
    refine List.mem_filter.mpr ⟨hc, ?_⟩
    rw [hns, hch]
    rfl
  · rw [hto]
    intro hmem
    have h2 := (List.mem_filter.mp hmem).2
    rw [hns, hch] at h2
    simp at h2

/-- Witness for C10: with an exports entry "General-2" present, the
never-exported channel "general" is classified as already exported and is
not scheduled for export. -/
theorem C10_witness :
    check_already_exported ["General-2"] "general" = true ∧
    "general" ∈ (classify_channels ["General-2"] [] false
      [⟨"general", "1"⟩, ⟨"General-2", "2"⟩]).alreadyExported ∧
    (⟨"general", "1"⟩ : ChannelCfg) ∉ (classify_channels ["General-2"] [] false
      [⟨"general", "1"⟩, ⟨"General-2", "2"⟩]).toExport :=
  ⟨by decide,
   ((C10_substring_classification ["General-2"] [] [⟨"general", "1"⟩, ⟨"General-2", "2"⟩]).2.2.2
     ⟨"general", "1"⟩ (by decide) (by decide)
     (((C10_substring_classification ["General-2"] []
        [⟨"general", "1"⟩, ⟨"General-2", "2"⟩]).1 "general").mp (by decide))).1,
   ((C10_substring_classification ["General-2"] [] [⟨"general", "1"⟩, ⟨"General-2", "2"⟩]).2.2.2
     ⟨"general", "1"⟩ (by decide) (by decide)
     (((C10_substring_classification ["General-2"] []
        [⟨"general", "1"⟩, ⟨"General-2", "2"⟩]).1 "general").mp (by decide))).2⟩

end Scraper
